import Mathlib

/-!
Verification of the resume-tailoring core in `src/tailoring/services.py`
(`AgentKitTailoringService` and `ResumeOptimizer`), as a shallow embedding.

Python values that flow through the loosely-typed parameter / response
dictionaries are modelled by `PyVal` (JSON-style scalars, strings, lists and
string-keyed objects).  Python `float` arithmetic is modelled by `ℚ`: every
constant the scored code uses (6, 3, 1.5, 0.6, ...) is exactly representable
in binary floating point and the operations performed stay within exact
ranges, so the rational model agrees with the float computation on the
properties verified here.  Python `str.strip`/`str.lower` are modelled on the
underlying character lists (ASCII behaviour).  The embedding models the
crash-free executions of the dynamically-typed code: where Python would raise
a `TypeError` on a value of an unexpected shape (e.g. iterating an integer),
the model returns the neutral value of that operation.
-/

namespace Tailoring

mutual
/-- Model of a dynamically-typed Python value (the JSON-compatible subset that
parameter dictionaries and collaborator responses are built from). -/
inductive PyVal : Type where
  | none : PyVal
  | bool : Bool → PyVal
  | int : Int → PyVal
  | float : ℚ → PyVal
  | str : String → PyVal
  | list : PyList → PyVal
  | dict : PyFields → PyVal
  deriving Repr, DecidableEq, Inhabited

/-- A Python list of dynamic values. -/
inductive PyList : Type where
  | nil : PyList
  | cons : PyVal → PyList → PyList
  deriving Repr, DecidableEq, Inhabited

/-- The bindings of a string-keyed Python dict, in insertion order. -/
inductive PyFields : Type where
  | nil : PyFields
  | cons : String → PyVal → PyFields → PyFields
  deriving Repr, DecidableEq, Inhabited
end

/-- View a `PyList` as a Lean list. -/
def PyList.toList : PyList → List PyVal
  | .nil => []
  | .cons v rest => v :: rest.toList

/-- Build a `PyList` from a Lean list. -/
def PyList.ofList : List PyVal → PyList
  | [] => .nil
  | v :: rest => .cons v (PyList.ofList rest)

theorem PyList.toList_ofList (l : List PyVal) : (PyList.ofList l).toList = l := by
  induction l with
  | nil => rfl
  | cons v rest ih => simp [PyList.ofList, PyList.toList, ih]

/-- View the dict bindings as a Lean association list. -/
def PyFields.toList : PyFields → List (String × PyVal)
  | .nil => []
  | .cons k v rest => (k, v) :: rest.toList

/-- Python `dict.get(k)` (keys are unique in a Python dict, so the first
binding is the binding). -/
def PyFields.get : PyFields → String → Option PyVal
  | .nil, _ => Option.none
  | .cons k v rest, key => if k = key then some v else rest.get key

/-- Python whitespace test used by `str.strip()` (ASCII whitespace). -/
def isPySpace (c : Char) : Bool :=
  c = ' ' || c = '\t' || c = '\n' || c = '\x0d' || c = '\x0b' || c = '\x0c'

/-- `str.strip()` on the character list. -/
def pyStripList (l : List Char) : List Char :=
  ((l.dropWhile isPySpace).reverse.dropWhile isPySpace).reverse

/-- Python `str.strip()`. -/
def pyStrip (s : String) : String :=
  ⟨pyStripList s.data⟩

/-- ASCII `str.lower()`. -/
def pyLower (s : String) : String :=
  ⟨s.data.map Char.toLower⟩

/-- Does `hay` start with `needle`?  (Helper for the substring test.) -/
def startsWithSeg : List Char → List Char → Bool
  | [], _ => true
  | _ :: _, [] => false
  | a :: as, b :: bs => a = b && startsWithSeg as bs

/-- Python `needle in hay` for strings: contiguous-substring containment. -/
def containsSeg : List Char → List Char → Bool
  | needle, [] => needle.isEmpty
  | needle, c :: rest => startsWithSeg needle (c :: rest) || containsSeg needle rest

/-- Python substring test `a in b`. -/
def pyInStr (a b : String) : Bool :=
  containsSeg a.data b.data

/-- Python truthiness of a `PyVal`. -/
def pyTruthy : PyVal → Bool
  | .none => false
  | .bool b => b
  | .int n => n ≠ 0
  | .float q => q ≠ 0
  | .str s => s ≠ ""
  | .list .nil => false
  | .list (.cons _ _) => true
  | .dict .nil => false
  | .dict (.cons _ _ _) => true

/-! ## SectionPlanner (`AgentKitTailoringService._plan_sections`) -/

/-- `ExperienceSnippet` dataclass (src/tailoring/services.py:122).  The
`source_ref` field holds the originating raw record (a Python dict). -/
structure ExperienceSnippet where
  snippet_id : String
  bucket : String
  title : String
  organization : String
  time_frame : String
  summary : String
  achievements : List String
  skills : List String
  source_ref : PyFields
  deriving Repr, DecidableEq, Inhabited

/-- One entry of the section plan.  The Python code emits a dict in which the
`use_full_pool` key is present (and `True`) only in the full-pool fallback;
absence of the key is modelled as `use_full_pool = false`. -/
structure SectionPlanEntry where
  name : String
  snippet_ids : List String
  use_full_pool : Bool
  deriving Repr, DecidableEq, Inhabited

/-- The snippet-id dedup pass inside `_plan_sections` (services.py:1734-1739):
walk the bucket's snippets in order, skip ids already in `seen`, and record
newly used ids.  Returns the kept ids and the grown `seen` set. -/
def dedupIds : List ExperienceSnippet → List String → List String × List String
  | [], seen => ([], seen)
  | s :: rest, seen =>
    if s.snippet_id ∈ seen then dedupIds rest seen
    else
      let r := dedupIds rest (s.snippet_id :: seen)
      (s.snippet_id :: r.1, r.2)

/-- The per-requested-name loop of `_plan_sections` (services.py:1709-1753),
carrying the `bucket_index` cursor and the `seen_ids` set. -/
def planLoop (selected : List (String × List ExperienceSnippet))
    (availableBuckets : List String) (allSnippetIds : List String) :
    List String → Nat → List String → List SectionPlanEntry
  | [], _, _ => []
  | sectionName :: rest, bucketIdx, seen =>
    -- exact-name match first; on a falsy result consume the next bucket
    let s0 := (dictGetSnips sectionName).getD []
    let next :=
      if s0.isEmpty && bucketIdx < availableBuckets.length then
        ((dictGetSnips (availableBuckets.getD bucketIdx "")).getD [], bucketIdx + 1)
      else
        (s0, bucketIdx)
    let snips := next.1
    let bucketIdx' := next.2
    if snips.isEmpty then
      ⟨sectionName, allSnippetIds, true⟩ ::
        planLoop selected availableBuckets allSnippetIds rest bucketIdx' seen
    else
      let r := dedupIds snips seen
      if r.1.isEmpty then
        ⟨sectionName, allSnippetIds, true⟩ ::
          planLoop selected availableBuckets allSnippetIds rest bucketIdx' r.2
      else
        ⟨sectionName, r.1, false⟩ ::
          planLoop selected availableBuckets allSnippetIds rest bucketIdx' r.2
where
  dictGetSnips (k : String) : Option (List ExperienceSnippet) :=
    (selected.find? (fun kv => kv.1 = k)).map (·.2)

/-- `AgentKitTailoringService._plan_sections` (services.py:1674-1755).  The
bucket→snippets mapping is the insertion-ordered dict `selected`. -/
def plan_sections (selected : List (String × List ExperienceSnippet))
    (layout : List String) : List SectionPlanEntry :=
  if layout.isEmpty then
    selected.map (fun bs => ⟨bs.1, bs.2.map (·.snippet_id), false⟩)
  else
    let availableBuckets := selected.map (·.1)
    let allSnippetIds := ((selected.map (·.2)).flatten).map (·.snippet_id)
    planLoop selected availableBuckets allSnippetIds layout 0 []

theorem planLoop_map_name (selected : List (String × List ExperienceSnippet))
    (ab ids : List String) :
    ∀ (layout : List String) (bi : Nat) (seen : List String),
      (planLoop selected ab ids layout bi seen).map (·.name) = layout := by
  intro layout
  induction layout with
  | nil => intro bi seen; simp [planLoop]
  | cons hd tl ih =>
    intro bi seen
    simp only [planLoop]
    split
    · split
      · simp [ih]
      · split <;> simp [ih]
    · split
      · simp [ih]
      · split <;> simp [ih]

/-- C1: for every non-empty requested section-name list `layout` of length N
and every bucket-to-snippet mapping, `_plan_sections` returns exactly N
entries and the list of entry names equals the requested list (so every
requested name heads exactly one entry per requested occurrence, in the
requested order). -/
theorem plan_sections_covers_layout
    (selected : List (String × List ExperienceSnippet))
    (layout : List String) (h : layout ≠ []) :
    (plan_sections selected layout).length = layout.length ∧
    (plan_sections selected layout).map (·.name) = layout := by
  have hne : layout.isEmpty = false := by
    cases layout with
    | nil => exact absurd rfl h
    | cons a l => rfl
  have hmap : (plan_sections selected layout).map (·.name) = layout := by
    simp only [plan_sections, hne, Bool.false_eq_true, if_false]
    exact planLoop_map_name selected _ _ layout 0 []
  refine ⟨?_, hmap⟩
  calc (plan_sections selected layout).length
      = ((plan_sections selected layout).map (·.name)).length := by
        simp
    _ = layout.length := by rw [hmap]

theorem plan_sections_covers_layout_witness :
    (["Leadership", "Projects"] : List String) ≠ [] ∧
    ((plan_sections [] ["Leadership", "Projects"]).length = 2 ∧
      (plan_sections [] ["Leadership", "Projects"]).map (·.name) =
        ["Leadership", "Projects"]) :=
  ⟨by decide, by
    simpa using plan_sections_covers_layout [] ["Leadership", "Projects"] (by decide)⟩

/-- C4 counterexample: with requested sections `["Leadership"]` and the single
available bucket `"Projects"` holding one snippet of id `"s1"`, the plan is a
single entry named `"Leadership"` with snippet ids `["s1"]`, but its
`use_full_pool` flag is NOT set (the `"Projects"` bucket is consumed as the
next unassigned bucket), contradicting the claimed `use_full_pool = true`. -/
theorem plan_sections_full_pool_counterexample :
    plan_sections
        [("Projects", [⟨"s1", "Projects", "T", "O", "", "", [], [], .nil⟩])]
        ["Leadership"] ≠
      [⟨"Leadership", ["s1"], true⟩] ∧
    plan_sections
        [("Projects", [⟨"s1", "Projects", "T", "O", "", "", [], [], .nil⟩])]
        ["Leadership"] =
      [⟨"Leadership", ["s1"], false⟩] := by
  decide

/-- C4 (amended): when the requested section list is `["Leadership"]` and the
only available bucket is `"Projects"` containing one snippet `s1`, the plan is
a single entry named `"Leadership"` whose snippet ids are `[s1.id]`; the
`use_full_pool` flag is not set, because the unmatched request consumes the
next unassigned bucket rather than falling back to the full pool. -/
theorem plan_sections_single_bucket_fallback (s1 : ExperienceSnippet) :
    plan_sections [("Projects", [s1])] ["Leadership"] =
      [⟨"Leadership", [s1.snippet_id], false⟩] := by
  simp [plan_sections, planLoop, planLoop.dictGetSnips, dedupIds]

/-! ## ExperienceRanker (`_score_snippet`, `_collect_experience_snippets`) -/

/-- The `JobRequirements` record: the requirements dict built by
`_extract_job_requirements` always carries exactly these ten keys
(services.py:1382-1393). -/
structure JobRequirements where
  skills : List String
  qualifications : List String
  responsibilities : List String
  keywords : List String
  required_skills : List String
  preferred_skills : List String
  certifications : List String
  action_verbs : List String
  years_experience : List String
  education : List String
  deriving Repr, DecidableEq, Inhabited

/-- `JobProfile` dataclass (services.py:99), restricted to the fields the
scored code reads. -/
structure JobProfile where
  source_url : String
  description : String
  requirements : JobRequirements
  deriving Repr, DecidableEq, Inhabited

/-- `AgentKitTailoringService._score_snippet` (services.py:1650-1672).
Lowercased skill/keyword sets are Finsets (Python `set`). -/
def score_snippet (snippet : ExperienceSnippet) (job_profile : JobProfile) : ℚ :=
  let job_keywords := (job_profile.requirements.keywords.map pyLower).toFinset
  let required_skills := (job_profile.requirements.required_skills.map pyLower).toFinset
  let preferred_skills := (job_profile.requirements.preferred_skills.map pyLower).toFinset
  let snippet_skills := (snippet.skills.map pyLower).toFinset
  let achievement_text := pyLower (String.intercalate " " snippet.achievements)
  (6 : ℚ) * (snippet_skills ∩ required_skills).card
    + 3 * (snippet_skills ∩ preferred_skills).card
    + 1.5 * (snippet_skills ∩ job_keywords).card
    + (job_keywords.filter (fun kw => kw ≠ "" ∧ pyInStr kw achievement_text)).card
    + (if snippet.bucket = "Leadership" then 2 else 0)
    + (if snippet.bucket = "Projects" then 1 else 0)
    + (if pyTruthy ((snippet.source_ref.get "current").getD .none) then 1.5 else 0)

/-- Stable insertion with a descending key: `x` is placed before the first
element whose key is `≤ key x`, i.e. after every earlier element with a
strictly greater key and before every element with an equal key that occurs
later in the input. -/
def insertDescBy (key : α → ℚ) (x : α) : List α → List α
  | [] => [x]
  | y :: ys => if key x < key y then y :: insertDescBy key x ys else x :: y :: ys

/-- Stable sort, descending on `key`.  A stable sort's output is uniquely
determined by the key order, so this insertion sort is extensionally the
Python `sorted(items, key=..., reverse=True)` of services.py:1576 (CPython
`sorted` is guaranteed stable, and `reverse=True` preserves stability). -/
def stableSortDesc (key : α → ℚ) : List α → List α
  | [] => []
  | x :: xs => insertDescBy key x (stableSortDesc key xs)

/-- The per-bucket selection of `_collect_experience_snippets`
(services.py:1575-1579): sort the scored candidates descending (stably) and
keep the top `limit_per_bucket`. -/
def selectTopPerBucket (items : List (ℚ × ExperienceSnippet)) (limit : Nat) :
    List ExperienceSnippet :=
  ((stableSortDesc (fun p => p.1) items).take limit).map (·.2)

/-- One bucket of `_collect_experience_snippets` end to end: score each
candidate (services.py:1571), then rank and truncate. -/
def rankBucket (jp : JobProfile) (candidates : List ExperienceSnippet)
    (limit : Nat) : List ExperienceSnippet :=
  selectTopPerBucket (candidates.map (fun s => (score_snippet s jp, s))) limit

theorem mem_insertDescBy (key : α → ℚ) (x a : α) (l : List α) :
    a ∈ insertDescBy key x l ↔ a = x ∨ a ∈ l := by
  induction l with
  | nil => simp [insertDescBy]
  | cons y ys ih =>
    simp only [insertDescBy]
    split
    · simp [ih]; tauto
    · simp

theorem insertDescBy_perm (key : α → ℚ) (x : α) (l : List α) :
    List.Perm (insertDescBy key x l) (x :: l) := by
  induction l with
  | nil => simp [insertDescBy]
  | cons y ys ih =>
    simp only [insertDescBy]
    split
    · exact (ih.cons y).trans (List.Perm.swap x y ys)
    · exact List.Perm.refl _

theorem stableSortDesc_perm (key : α → ℚ) (l : List α) :
    List.Perm (stableSortDesc key l) l := by
  induction l with
  | nil => exact List.Perm.refl _
  | cons x xs ih =>
    exact (insertDescBy_perm key x (stableSortDesc key xs)).trans (ih.cons x)

theorem pairwise_insertDescBy (key : α → ℚ) (x : α) (l : List α)
    (h : l.Pairwise (fun a b => key b ≤ key a)) :
    (insertDescBy key x l).Pairwise (fun a b => key b ≤ key a) := by
  induction l with
  | nil => simp [insertDescBy]
  | cons y ys ih =>
    rw [List.pairwise_cons] at h
    simp only [insertDescBy]
    split
    · rename_i hlt
      rw [List.pairwise_cons]
      refine ⟨?_, ih h.2⟩
      intro a ha
      rcases (mem_insertDescBy key x a ys).1 ha with rfl | ha
      · exact le_of_lt hlt
      · exact h.1 a ha
    · rename_i hge
      push_neg at hge
      rw [List.pairwise_cons]
      refine ⟨?_, List.pairwise_cons.2 h⟩
      intro a ha
      rcases List.mem_cons.1 ha with rfl | ha
      · exact hge
      · exact le_trans (h.1 a ha) hge

theorem pairwise_stableSortDesc (key : α → ℚ) (l : List α) :
    (stableSortDesc key l).Pairwise (fun a b => key b ≤ key a) := by
  induction l with
  | nil => simp [stableSortDesc]
  | cons x xs ih => exact pairwise_insertDescBy key x _ ih

theorem filter_insertDescBy_of_eq (key : α → ℚ) (x : α) (q : ℚ) (hx : key x = q)
    (l : List α) :
    (insertDescBy key x l).filter (fun a => key a = q) =
      x :: l.filter (fun a => key a = q) := by
  induction l with
  | nil => simp [insertDescBy, List.filter, hx]
  | cons y ys ih =>
    simp only [insertDescBy]
    split
    · rename_i hlt
      have hy : ¬ (key y = q) := by
        intro hq; rw [hx, hq] at hlt; exact lt_irrefl _ hlt
      simp [List.filter_cons, hy, ih]
    · simp [List.filter_cons, hx]

theorem filter_insertDescBy_of_ne (key : α → ℚ) (x : α) (q : ℚ) (hx : key x ≠ q)
    (l : List α) :
    (insertDescBy key x l).filter (fun a => key a = q) =
      l.filter (fun a => key a = q) := by
  induction l with
  | nil => simp [insertDescBy, List.filter, hx]
  | cons y ys ih =>
    simp only [insertDescBy]
    split
    · simp [List.filter_cons, ih]
    · simp [List.filter_cons, hx]

/-- Stability of the descending sort: for every key value `q`, the
subsequence of elements whose key is `q` is unchanged — ties keep their
original encounter order. -/
theorem filter_stableSortDesc (key : α → ℚ) (q : ℚ) (l : List α) :
    (stableSortDesc key l).filter (fun a => key a = q) =
      l.filter (fun a => key a = q) := by
  induction l with
  | nil => rfl
  | cons x xs ih =>
    simp only [stableSortDesc]
    by_cases hx : key x = q
    · rw [filter_insertDescBy_of_eq key x q hx, ih, List.filter_cons,
        if_pos (by simpa using hx)]
    · rw [filter_insertDescBy_of_ne key x q hx, ih, List.filter_cons,
        if_neg (by simpa using hx)]

/-- Adding one skill whose lowercase form is new to the snippet and lies in
the lowered required-skill set raises `_score_snippet` by at least 6 (the
required-overlap weight); every other term can only grow. -/
theorem score_snippet_gain (jp : JobProfile) (s1 : ExperienceSnippet) (k : String)
    (hreq : pyLower k ∈ jp.requirements.required_skills.map pyLower)
    (hnew : pyLower k ∉ s1.skills.map pyLower) :
    score_snippet s1 jp + 6 ≤ score_snippet { s1 with skills := k :: s1.skills } jp := by
  classical
  simp only [score_snippet, List.map_cons, List.toFinset_cons]
  have haR : pyLower k ∈ (jp.requirements.required_skills.map pyLower).toFinset :=
    List.mem_toFinset.2 hreq
  have haS : pyLower k ∉ (s1.skills.map pyLower).toFinset := fun h =>
    hnew (List.mem_toFinset.1 h)
  have h1 : (insert (pyLower k) (s1.skills.map pyLower).toFinset ∩
        (jp.requirements.required_skills.map pyLower).toFinset).card =
      ((s1.skills.map pyLower).toFinset ∩
        (jp.requirements.required_skills.map pyLower).toFinset).card + 1 := by
    rw [Finset.insert_inter_of_mem haR,
      Finset.card_insert_of_not_mem (fun h => haS (Finset.mem_of_mem_inter_left h))]
  have h2 : ((s1.skills.map pyLower).toFinset ∩
        (jp.requirements.preferred_skills.map pyLower).toFinset).card ≤
      (insert (pyLower k) (s1.skills.map pyLower).toFinset ∩
        (jp.requirements.preferred_skills.map pyLower).toFinset).card :=
    Finset.card_le_card
      (Finset.inter_subset_inter (Finset.subset_insert _ _) (Finset.Subset.refl _))
  have h3 : ((s1.skills.map pyLower).toFinset ∩
        (jp.requirements.keywords.map pyLower).toFinset).card ≤
      (insert (pyLower k) (s1.skills.map pyLower).toFinset ∩
        (jp.requirements.keywords.map pyLower).toFinset).card :=
    Finset.card_le_card
      (Finset.inter_subset_inter (Finset.subset_insert _ _) (Finset.Subset.refl _))
  have h2Q : (((s1.skills.map pyLower).toFinset ∩
        (jp.requirements.preferred_skills.map pyLower).toFinset).card : ℚ) ≤
      ((insert (pyLower k) (s1.skills.map pyLower).toFinset ∩
        (jp.requirements.preferred_skills.map pyLower).toFinset).card : ℚ) := by
    exact_mod_cast h2
  have h3Q : (((s1.skills.map pyLower).toFinset ∩
        (jp.requirements.keywords.map pyLower).toFinset).card : ℚ) ≤
      ((insert (pyLower k) (s1.skills.map pyLower).toFinset ∩
        (jp.requirements.keywords.map pyLower).toFinset).card : ℚ) := by
    exact_mod_cast h3
  rw [h1]
  push_cast
  linarith

/-- In a ranked bucket (stable descending sort on score, truncated to the
bucket limit), an element with a strictly higher score sits at a strictly
earlier index. -/
theorem rankBucket_score_lt_earlier (jp : JobProfile) (a b : ExperienceSnippet)
    (hlt : score_snippet b jp < score_snippet a jp)
    (items : List ExperienceSnippet) (limit i j : Nat)
    (hi : (rankBucket jp items limit)[i]? = some a)
    (hj : (rankBucket jp items limit)[j]? = some b) : i < j := by
  classical
  set pairs := items.map (fun s => (score_snippet s jp, s)) with hpairs
  set L := (stableSortDesc (fun p => p.1) pairs).take limit with hL
  have hinv : ∀ p ∈ L, p.1 = score_snippet p.2 jp := by
    intro p hp
    have hp1 : p ∈ stableSortDesc (fun p => p.1) pairs :=
      (List.take_sublist limit _).mem hp
    have hp2 : p ∈ pairs := ((stableSortDesc_perm _ pairs).mem_iff).1 hp1
    rcases List.mem_map.1 hp2 with ⟨s, _, rfl⟩
    rfl
  have hpw : L.Pairwise (fun p q => q.1 ≤ p.1) :=
    (pairwise_stableSortDesc (fun p => p.1) pairs).sublist (List.take_sublist limit _)
  have hi' : (L.map (·.2))[i]? = some a := hi
  have hj' : (L.map (·.2))[j]? = some b := hj
  rw [List.getElem?_map] at hi' hj'
  rcases Option.map_eq_some'.1 hi' with ⟨pa, hpa, hpa2⟩
  rcases Option.map_eq_some'.1 hj' with ⟨pb, hpb, hpb2⟩
  have hpaL : pa ∈ L := List.getElem?_mem hpa
  have hpbL : pb ∈ L := List.getElem?_mem hpb
  have hsa : pa.1 = score_snippet a jp := by rw [hinv pa hpaL, hpa2]
  have hsb : pb.1 = score_snippet b jp := by rw [hinv pb hpbL, hpb2]
  by_contra hij
  push_neg at hij
  rcases Nat.lt_or_ge j i with hji | hji
  · rcases List.getElem?_eq_some.1 hpa with ⟨hilen, hia⟩
    rcases List.getElem?_eq_some.1 hpb with ⟨hjlen, hjb⟩
    have := (List.pairwise_iff_getElem.1 hpw) j i hjlen hilen hji
    rw [hia, hjb] at this
    rw [hsa, hsb] at this
    exact absurd (lt_of_lt_of_le hlt this) (lt_irrefl _)
  · have hje : j = i := Nat.le_antisymm hij hji
    subst hje
    rw [hpa] at hpb
    have hpe : pa = pb := Option.some.inj hpb
    rw [hpe, hsb] at hsa
    rw [hsa] at hlt
    exact lt_irrefl _ hlt

/-- C7: for every job profile and every pair of snippets identical except
that one has one additional (genuinely new, lowercased) skill overlapping the
required-skill set, the snippet with the extra overlap scores strictly higher
in `_score_snippet`, is placed strictly earlier in the bucket's ranked list,
and ties in score preserve the original encounter order (the subsequence at
any fixed score value is unchanged by the stable descending sort). -/
theorem extra_required_skill_ranks_earlier
    (jp : JobProfile) (s1 s2 : ExperienceSnippet) (k : String)
    (hs2 : s2 = { s1 with skills := k :: s1.skills })
    (hreq : pyLower k ∈ jp.requirements.required_skills.map pyLower)
    (hnew : pyLower k ∉ s1.skills.map pyLower) :
    score_snippet s2 jp > score_snippet s1 jp ∧
    (∀ (items : List ExperienceSnippet) (limit i j : Nat),
        (rankBucket jp items limit)[i]? = some s2 →
        (rankBucket jp items limit)[j]? = some s1 → i < j) ∧
    (∀ (pairs : List (ℚ × ExperienceSnippet)) (q : ℚ),
        (stableSortDesc (fun p => p.1) pairs).filter (fun p => p.1 = q) =
          pairs.filter (fun p => p.1 = q)) := by
  have hgain := score_snippet_gain jp s1 k hreq hnew
  rw [← hs2] at hgain
  have hlt : score_snippet s1 jp < score_snippet s2 jp := by linarith
  refine ⟨hlt, ?_, ?_⟩
  · intro items limit i j hi hj
    exact rankBucket_score_lt_earlier jp s2 s1 hlt items limit i j hi hj
  · intro pairs q
    exact filter_stableSortDesc (fun p => p.1) q pairs

theorem extra_required_skill_ranks_earlier_witness :
    ((⟨"e1", "Professional Experience", "T", "O", "", "", [], ["Python"], .nil⟩ :
        ExperienceSnippet) =
      { (⟨"e1", "Professional Experience", "T", "O", "", "", [], [], .nil⟩ :
          ExperienceSnippet) with skills := "Python" :: [] }) ∧
    (pyLower "Python" ∈ (["python"] : List String).map pyLower) ∧
    (pyLower "Python" ∉ ([] : List String).map pyLower) ∧
    score_snippet
        ⟨"e1", "Professional Experience", "T", "O", "", "", [], ["Python"], .nil⟩
        ⟨"", "", ⟨[], [], [], [], ["python"], [], [], [], [], []⟩⟩ >
      score_snippet
        ⟨"e1", "Professional Experience", "T", "O", "", "", [], [], .nil⟩
        ⟨"", "", ⟨[], [], [], [], ["python"], [], [], [], [], []⟩⟩ :=
  ⟨rfl, by decide, by decide,
    (extra_required_skill_ranks_earlier
      ⟨"", "", ⟨[], [], [], [], ["python"], [], [], [], [], []⟩⟩
      ⟨"e1", "Professional Experience", "T", "O", "", "", [], [], .nil⟩
      ⟨"e1", "Professional Experience", "T", "O", "", "", [], ["Python"], .nil⟩
      "Python" rfl (by decide) (by decide)).1⟩

/-! ## ATSScorer (`ResumeOptimizer.calculate_ats_score`) -/

/-- Result record of `calculate_ats_score` (services.py:2381-2391).  The
early "no requirements" return (services.py:2248-2256) omits the
`matched_required`/`matched_preferred` keys; their absence is modelled as
empty lists. -/
structure AtsScore where
  overall_score : ℚ
  keyword_match : ℚ
  required_skills_match : ℚ
  preferred_skills_match : ℚ
  missing_critical : List String
  missing_preferred : List String
  matched_required : List String
  matched_preferred : List String
  suggestions : List String
  deriving Repr, DecidableEq, Inhabited

/-- Round half to even (Python `round` semantics on the exact rational;
binary-float representation error is outside the model). -/
def roundHalfEven (q : ℚ) : ℤ :=
  let f := ⌊q⌋
  let frac := q - f
  if frac < 1/2 then f
  else if frac > 1/2 then f + 1
  else if Even f then f else f + 1

/-- Python `round(q, 1)`. -/
def pyRound1 (q : ℚ) : ℚ :=
  (roundHalfEven (q * 10) : ℚ) / 10

/-- Number of maximal digit runs in the text: the count of matches of the
regex `\d+` (services.py:2375), scanning with an in-run flag. -/
def countDigitRunsAux : List Char → Bool → Nat
  | [], _ => 0
  | c :: rest, inRun =>
    if c.isDigit then (if inRun then 0 else 1) + countDigitRunsAux rest true
    else countDigitRunsAux rest false

def countDigitRuns (s : String) : Nat :=
  countDigitRunsAux s.data false

/-- The closed-class stopword list of `calculate_ats_score`
(services.py:2279, 2302). -/
def trivialTerms : List String := ["a", "an", "the", "aid", "it", "is"]

/-- `ResumeOptimizer.calculate_ats_score` (services.py:2228-2391). -/
def calculate_ats_score (bullet_points job_keywords required_skills
    preferred_skills : List String) : AtsScore :=
  if job_keywords.isEmpty ∧ required_skills.isEmpty then
    ⟨0, 0, 0, 0, [], [], [], [], ["No job requirements provided for analysis"]⟩
  else
    let resume_text := pyLower (String.intercalate " " bullet_points)
    -- keyword match
    let matched_keywords := job_keywords.filter (fun kw => pyInStr (pyLower kw) resume_text)
    let keyword_match_pct : ℚ :=
      if job_keywords.isEmpty then 0
      else (matched_keywords.length : ℚ) / (job_keywords.length : ℚ) * 100
    -- required skills match (trivial terms skipped before matching)
    let requiredValid := required_skills.filter
      (fun skill => ¬ (skill.length ≤ 2 ∨ pyLower skill ∈ trivialTerms))
    let matched_required := requiredValid.filter (fun skill => pyInStr (pyLower skill) resume_text)
    let missing_required := requiredValid.filter (fun skill => ¬ pyInStr (pyLower skill) resume_text)
    let required_match_pct : ℚ :=
      if required_skills.isEmpty then 100
      else if 0 < requiredValid.length then
        (matched_required.length : ℚ) / (requiredValid.length : ℚ) * 100
      else 100
    -- preferred skills match
    let preferredValid := preferred_skills.filter
      (fun skill => ¬ (skill.length ≤ 2 ∨ pyLower skill ∈ trivialTerms))
    let matched_preferred := preferredValid.filter (fun skill => pyInStr (pyLower skill) resume_text)
    let missing_preferred := preferredValid.filter (fun skill => ¬ pyInStr (pyLower skill) resume_text)
    let preferred_match_pct : ℚ :=
      if preferred_skills.isEmpty then 0
      else if 0 < preferredValid.length then
        (matched_preferred.length : ℚ) / (preferredValid.length : ℚ) * 100
      else 0
    let overall_score : ℚ :=
      required_match_pct * 0.60 + keyword_match_pct * 0.30 + preferred_match_pct * 0.10
    -- suggestions, in emission order
    let sugg1 : List String :=
      if missing_required.isEmpty then []
      else
        let top_missing := missing_required.take 3
        if top_missing.length = 1 then
          ["Add required skill: " ++ top_missing.headI ++
            " - Include specific examples of how you\x27ve used this in your experience"]
        else
          ["Add required skills: " ++ String.intercalate ", " top_missing ++
            " - Weave these into your achievement descriptions with concrete examples"]
    let sugg2 : List String :=
      if keyword_match_pct < 60 ∧ ¬ job_keywords.isEmpty then
        let missing_keywords :=
          (job_keywords.filter (fun kw => ¬ pyInStr (pyLower kw) resume_text)).take 5
        if missing_keywords.isEmpty then []
        else
          ["Strengthen keyword coverage by incorporating: " ++
            String.intercalate ", " missing_keywords ++
            " - Use these terms naturally when describing relevant work"]
      else []
    let sugg3 : List String :=
      if ¬ missing_preferred.isEmpty ∧ preferred_match_pct < 40 then
        let top_preferred := (missing_preferred.take 3).filter (fun s => 2 < s.length)
        if top_preferred.isEmpty then []
        else
          ["Consider highlighting: " ++ String.intercalate ", " top_preferred ++
            " - These preferred skills could differentiate your application"]
      else []
    let sugg4 : List String :=
      if 85 ≤ overall_score then
        ["Strong ATS compatibility - Your resume aligns well with job requirements"]
      else if 70 ≤ overall_score then
        ["Good foundation - Focus on incorporating the missing required skills to reach excellent ATS compatibility"]
      else if 50 ≤ overall_score then
        ["Moderate ATS match - Priority: add required skills with specific examples from your experience"]
      else
        ["Significant gaps in required skills - Review job posting carefully and align your resume with key requirements"]
    let sugg5 : List String :=
      if (countDigitRuns resume_text : ℚ) < (bullet_points.length : ℚ) * 0.5 then
        ["Add quantifiable metrics to your achievements (e.g., percentages, dollar amounts, time savings, user scale)"]
      else []
    ⟨pyRound1 overall_score,
      pyRound1 keyword_match_pct,
      pyRound1 required_match_pct,
      pyRound1 preferred_match_pct,
      missing_required.take 10,
      missing_preferred.take 10,
      matched_required,
      matched_preferred,
      sugg1 ++ sugg2 ++ sugg3 ++ sugg4 ++ sugg5⟩

theorem ratio_pct_bounds (m n : Nat) (h : m ≤ n) :
    0 ≤ (m : ℚ) / (n : ℚ) * 100 ∧ (m : ℚ) / (n : ℚ) * 100 ≤ 100 := by
  rcases Nat.eq_zero_or_pos n with hn | hn
  · subst hn
    interval_cases m
    norm_num
  · have hn' : (0 : ℚ) < n := by exact_mod_cast hn
    have hdiv : (m : ℚ) / n ≤ 1 :=
      div_le_one_of_le₀ (by exact_mod_cast h) (le_of_lt hn')
    have hdiv0 : (0 : ℚ) ≤ (m : ℚ) / n := by positivity
    constructor <;> nlinarith

theorem roundHalfEven_bounds (t : ℚ) (h0 : 0 ≤ t) (h1 : t ≤ 1000) :
    (0 : ℤ) ≤ roundHalfEven t ∧ roundHalfEven t ≤ 1000 := by
  have hf0 : (0 : ℤ) ≤ ⌊t⌋ := by
    have := Int.floor_mono h0
    simpa using this
  have hf1 : ⌊t⌋ ≤ 1000 := by
    have := Int.floor_mono h1
    simpa using this
  have hplus : t - ⌊t⌋ ≥ 1/2 → ⌊t⌋ + 1 ≤ 1000 := by
    intro hfr
    have hcast : (⌊t⌋ : ℚ) ≤ t - 1/2 := by linarith
    have : (⌊t⌋ : ℚ) < 1000 := by linarith
    have : ⌊t⌋ < 1000 := by exact_mod_cast this
    omega
  by_cases hc1 : t - (⌊t⌋ : ℚ) < 1/2
  · simp only [roundHalfEven, if_pos hc1]
    exact ⟨hf0, hf1⟩
  · push_neg at hc1
    by_cases hc2 : t - (⌊t⌋ : ℚ) > 1/2
    · simp only [roundHalfEven, if_neg (not_lt.2 hc1), if_pos hc2]
      exact ⟨by omega, hplus hc1⟩
    · by_cases hc3 : Even ⌊t⌋
      · simp only [roundHalfEven, if_neg (not_lt.2 hc1), if_neg hc2, if_pos hc3]
        exact ⟨hf0, hf1⟩
      · simp only [roundHalfEven, if_neg (not_lt.2 hc1), if_neg hc2, if_neg hc3]
        exact ⟨by omega, hplus hc1⟩

theorem pyRound1_bounds (q : ℚ) (h0 : 0 ≤ q) (h1 : q ≤ 100) :
    0 ≤ pyRound1 q ∧ pyRound1 q ≤ 100 := by
  have hb := roundHalfEven_bounds (q * 10) (by linarith) (by linarith)
  have hb0 : (0 : ℚ) ≤ (roundHalfEven (q * 10) : ℚ) := by exact_mod_cast hb.1
  have hb1 : (roundHalfEven (q * 10) : ℚ) ≤ 1000 := by exact_mod_cast hb.2
  unfold pyRound1
  constructor <;> [positivity; linarith]

/-- C8: for every list of bullet points, every keyword list and every
required/preferred skill list, the `overall_score` returned by
`calculate_ats_score` satisfies `0 ≤ overall_score ≤ 100`. -/
theorem calculate_ats_score_overall_bounds
    (bullet_points job_keywords required_skills preferred_skills : List String) :
    0 ≤ (calculate_ats_score bullet_points job_keywords required_skills
          preferred_skills).overall_score ∧
    (calculate_ats_score bullet_points job_keywords required_skills
          preferred_skills).overall_score ≤ 100 := by
  unfold calculate_ats_score
  split
  · norm_num
  · set resume_text := pyLower (String.intercalate " " bullet_points) with hrt
    have hk : 0 ≤ (if job_keywords.isEmpty then (0 : ℚ)
          else ((job_keywords.filter (fun kw => pyInStr (pyLower kw) resume_text)).length : ℚ)
            / (job_keywords.length : ℚ) * 100) ∧
        (if job_keywords.isEmpty then (0 : ℚ)
          else ((job_keywords.filter (fun kw => pyInStr (pyLower kw) resume_text)).length : ℚ)
            / (job_keywords.length : ℚ) * 100) ≤ 100 := by
      split
      · norm_num
      · exact ratio_pct_bounds _ _ (List.length_filter_le _ _)
    have hreqv := List.length_filter_le
      (fun skill => pyInStr (pyLower skill) resume_text)
      (required_skills.filter (fun skill => ¬ (skill.length ≤ 2 ∨ pyLower skill ∈ trivialTerms)))
    have hprefv := List.length_filter_le
      (fun skill => pyInStr (pyLower skill) resume_text)
      (preferred_skills.filter (fun skill => ¬ (skill.length ≤ 2 ∨ pyLower skill ∈ trivialTerms)))
    have hr : 0 ≤ (if required_skills.isEmpty then (100 : ℚ)
          else if 0 < (required_skills.filter (fun skill => ¬ (skill.length ≤ 2 ∨ pyLower skill ∈ trivialTerms))).length then
            (((required_skills.filter (fun skill => ¬ (skill.length ≤ 2 ∨ pyLower skill ∈ trivialTerms))).filter
              (fun skill => pyInStr (pyLower skill) resume_text)).length : ℚ)
            / ((required_skills.filter (fun skill => ¬ (skill.length ≤ 2 ∨ pyLower skill ∈ trivialTerms))).length : ℚ) * 100
          else 100) ∧
        (if required_skills.isEmpty then (100 : ℚ)
          else if 0 < (required_skills.filter (fun skill => ¬ (skill.length ≤ 2 ∨ pyLower skill ∈ trivialTerms))).length then
            (((required_skills.filter (fun skill => ¬ (skill.length ≤ 2 ∨ pyLower skill ∈ trivialTerms))).filter
              (fun skill => pyInStr (pyLower skill) resume_text)).length : ℚ)
            / ((required_skills.filter (fun skill => ¬ (skill.length ≤ 2 ∨ pyLower skill ∈ trivialTerms))).length : ℚ) * 100
          else 100) ≤ 100 := by
      split
      · norm_num
      · split
        · exact ratio_pct_bounds _ _ hreqv
        · norm_num
    have hp : 0 ≤ (if preferred_skills.isEmpty then (0 : ℚ)
          else if 0 < (preferred_skills.filter (fun skill => ¬ (skill.length ≤ 2 ∨ pyLower skill ∈ trivialTerms))).length then
            (((preferred_skills.filter (fun skill => ¬ (skill.length ≤ 2 ∨ pyLower skill ∈ trivialTerms))).filter
              (fun skill => pyInStr (pyLower skill) resume_text)).length : ℚ)
            / ((preferred_skills.filter (fun skill => ¬ (skill.length ≤ 2 ∨ pyLower skill ∈ trivialTerms))).length : ℚ) * 100
          else 0) ∧
        (if preferred_skills.isEmpty then (0 : ℚ)
          else if 0 < (preferred_skills.filter (fun skill => ¬ (skill.length ≤ 2 ∨ pyLower skill ∈ trivialTerms))).length then
            (((preferred_skills.filter (fun skill => ¬ (skill.length ≤ 2 ∨ pyLower skill ∈ trivialTerms))).filter
              (fun skill => pyInStr (pyLower skill) resume_text)).length : ℚ)
            / ((preferred_skills.filter (fun skill => ¬ (skill.length ≤ 2 ∨ pyLower skill ∈ trivialTerms))).length : ℚ) * 100
          else 0) ≤ 100 := by
      split
      · norm_num
      · split
        · exact ratio_pct_bounds _ _ hprefv
        · norm_num
    refine pyRound1_bounds _ ?_ ?_
    · nlinarith [hk.1, hk.2, hr.1, hr.2, hp.1, hp.2]
    · nlinarith [hk.1, hk.2, hr.1, hr.2, hp.1, hp.2]

/-- C10: whenever both `job_keywords` and `required_skills` are empty,
`calculate_ats_score` takes the early-return branch: overall score `0.0`,
the single suggestion "No job requirements provided for analysis", all match
percentages zero and all lists empty — regardless of the bullet points and
of any non-empty `preferred_skills` list, which therefore never contributes
to the score on its own. -/
theorem calculate_ats_score_no_requirements
    (bullet_points preferred_skills : List String) :
    calculate_ats_score bullet_points [] [] preferred_skills =
      ⟨0, 0, 0, 0, [], [], [], [],
        ["No job requirements provided for analysis"]⟩ := by
  rfl

/-! ## RequirementExtractor (`_extract_keywords`, `_extract_job_requirements`) -/

/-- The curated vocabularies used by the extractor, plus a model of the
years-of-experience extraction.  The vocabulary contents
(`TECH_KEYWORDS`, `ATS_ACTION_VERBS`, `SOFT_SKILLS`, `CERTIFICATIONS`,
services.py:212-280, and the module-level `STOPWORDS`) are static data; the
theorems below are proved for every possible vocabulary content, so they are
abstracted as fields.  `yearsMatches` models the three numeric-pattern
regexes of services.py:1406-1415: the list of `"<n>+ years"` strings found
in the lowered description.  Python iterates the vocabulary *sets* in an
unspecified hash order; a field's list order stands for that order. -/
structure ExtractorCtx where
  TECH_KEYWORDS : List String
  ATS_ACTION_VERBS : List String
  SOFT_SKILLS : List String
  CERTIFICATIONS : List String
  STOPWORDS : List String
  yearsMatches : String → List String

/-- `str.lstrip(chars)`. -/
def pyLStrip (s : String) (chars : List Char) : String :=
  ⟨s.data.dropWhile (fun c => c ∈ chars)⟩

/-- `str.strip(chars)` with an explicit character set. -/
def pyStripChars (s : String) (chars : List Char) : String :=
  ⟨((s.data.dropWhile (fun c => c ∈ chars)).reverse.dropWhile
      (fun c => c ∈ chars)).reverse⟩

/-- Character class of the token regex (services.py:1353): letters, digits,
and the symbols `+`, `#`, `.`, `/`, `-`. -/
def isWordTail (c : Char) : Bool :=
  c.isAlpha || c.isDigit || c = '+' || c = '#' || c = '.' || c = '/' || c = '-'

/-- The token scan of services.py:1353 (`re.findall` with a letter followed
by one or more tail-class characters): leftmost, non-overlapping, greedy
matches. -/
def findTokens : List Char → List String
  | [] => []
  | c :: rest =>
    if c.isAlpha then
      let tail := rest.takeWhile isWordTail
      if tail.isEmpty then findTokens rest
      else ⟨c :: tail⟩ :: findTokens (rest.dropWhile isWordTail)
    else findTokens rest
termination_by l => l.length
decreasing_by
  · simp_wf
  · simp_wf
    have := (List.dropWhile_sublist isWordTail (l := rest)).length_le
    omega
  · simp_wf

/-- Python `str.isupper()`: at least one cased character and no lowercase
one (ASCII model). -/
def pyIsUpper (s : String) : Bool :=
  s.data.any Char.isAlpha && s.data.all (fun c => !c.isLower)

/-- One step of Python `str.istitle()`: uppercase letters may only follow an
uncased character, lowercase letters only a cased one. -/
def pyIsTitleAux : List Char → Bool → Bool → Bool
  | [], _, hasCased => hasCased
  | c :: rest, prevCased, hasCased =>
    if c.isUpper then
      if prevCased then false else pyIsTitleAux rest true true
    else if c.isLower then
      if prevCased then pyIsTitleAux rest true true else false
    else pyIsTitleAux rest false hasCased

/-- Python `str.istitle()` (ASCII model). -/
def pyIsTitle (s : String) : Bool :=
  pyIsTitleAux s.data false false

/-- `AgentKitTailoringService._extract_keywords` (services.py:1349-1375). -/
def extract_keywords (ctx : ExtractorCtx) (text : String) : List String :=
  let tokens := findTokens text.data
  let text_lower := pyLower text
  let certKeywords := ctx.CERTIFICATIONS.filter (fun cert => pyInStr cert text_lower)
  let tokenKeywords := tokens.filterMap (fun token =>
    let token_clean := pyLower (pyStripChars token " .,;:()[]{}".data)
    if token_clean.length < 2 || token_clean ∈ ctx.STOPWORDS then
      Option.none
    else if token_clean ∈ ctx.TECH_KEYWORDS || token_clean ∈ ctx.ATS_ACTION_VERBS ||
        token_clean ∈ ctx.SOFT_SKILLS || pyIsTitle token || pyIsUpper token then
      some token_clean
    else
      Option.none)
  certKeywords ++ tokenKeywords

/-- The current-bucket state of the extraction loop (services.py:1398). -/
inductive ExtractBucket : Type where
  | responsibilities
  | qualifications
  | skills
  deriving Repr, DecidableEq

/-- Mutable state threaded through the line loop of
`_extract_job_requirements`. -/
structure ExtractState where
  current_bucket : ExtractBucket
  is_required_section : Bool
  is_preferred_section : Bool
  skill_candidates : List String
  keyword_candidates : List String
  qualifications : List String
  responsibilities : List String
  required_skills : List String
  preferred_skills : List String
  action_verbs : List String

/-- One iteration of the line loop (services.py:1428-1488). -/
def processLine (ctx : ExtractorCtx) (st : ExtractState) (raw_line : String) :
    ExtractState :=
  let line := pyStrip raw_line
  if line = "" then st
  else
    let lowered := pyLower line
    if pyInStr "responsibil" lowered || pyInStr "duties" lowered ||
        pyInStr "you will" lowered then
      { st with
          current_bucket := .responsibilities
          is_required_section := false
          is_preferred_section := false }
    else if pyInStr "qualification" lowered || pyInStr "requirements" lowered ||
        pyInStr "must have" lowered then
      { st with
          current_bucket := .qualifications
          is_required_section := pyInStr "required" lowered || pyInStr "must" lowered
          is_preferred_section := pyInStr "preferred" lowered ||
            pyInStr "nice to have" lowered }
    else if pyInStr "skill" lowered || pyInStr "technolog" lowered ||
        pyInStr "tools" lowered || pyInStr "proficienc" lowered then
      { st with
          current_bucket := .skills
          is_required_section := pyInStr "required" lowered || pyInStr "must" lowered
          is_preferred_section := pyInStr "preferred" lowered ||
            pyInStr "nice to have" lowered || pyInStr "bonus" lowered }
    else if pyInStr "preferred" lowered || pyInStr "nice to have" lowered ||
        pyInStr "bonus" lowered || pyInStr "plus" lowered then
      { st with
          is_preferred_section := true
          is_required_section := false }
    else
      let bullet := pyLStrip line "-*•· ".data
      let extracted := extract_keywords ctx bullet
      let line_is_required := pyInStr "required" lowered || pyInStr "must" lowered ||
        pyInStr "essential" lowered
      let line_is_preferred := pyInStr "preferred" lowered ||
        pyInStr "nice to have" lowered || pyInStr "bonus" lowered ||
        pyInStr "plus" lowered
      match st.current_bucket with
      | .skills =>
        let st := { st with skill_candidates := st.skill_candidates ++ extracted }
        if line_is_required || (st.is_required_section && !st.is_preferred_section) then
          { st with required_skills := st.required_skills ++ extracted }
        else if line_is_preferred || st.is_preferred_section then
          { st with preferred_skills := st.preferred_skills ++ extracted }
        else st
      | .qualifications =>
        let st :=
          { st with
              qualifications := st.qualifications ++ [bullet]
              keyword_candidates := st.keyword_candidates ++ extracted }
        if line_is_required || st.is_required_section then
          { st with required_skills := st.required_skills ++ extracted }
        else if line_is_preferred || st.is_preferred_section then
          { st with preferred_skills := st.preferred_skills ++ extracted }
        else st
      | .responsibilities =>
        { st with
            responsibilities := st.responsibilities ++ [bullet]
            keyword_candidates := st.keyword_candidates ++ extracted
            action_verbs := st.action_verbs ++
              ctx.ATS_ACTION_VERBS.filter (fun verb => pyInStr verb lowered) }

/-- `sorted(set(xs))`: the distinct values in ascending lexicographic
order. -/
def sortedDedup (xs : List String) : List String :=
  (xs.dedup).mergeSort (fun a b => decide (a ≤ b))

/-- The education keyword list local to `_extract_job_requirements`
(services.py:1418). -/
def educationKeywords : List String :=
  ["bachelor", "master", "phd", "ph.d", "mba", "degree", "b.s.", "m.s."]

/-- The education scan (services.py:1419-1425): for each education keyword
present anywhere in the lowered text, record the first line containing it,
stripped of leading bullet glyphs. -/
def educationLines (job_description : String) : List String :=
  let text_lower := pyLower job_description
  educationKeywords.filterMap (fun kw =>
    if pyInStr kw text_lower then
      ((job_description.splitOn "\n").find? (fun line => pyInStr kw (pyLower line))).map
        (fun line => pyLStrip (pyStrip line) "-*•· ".data)
    else Option.none)

/-- `AgentKitTailoringService._extract_job_requirements`
(services.py:1377-1506).  Lines are split on newline (Python `splitlines`;
blank pieces are skipped by the loop either way).  `list(set(...))` for the
education field has unspecified Python ordering, modelled as
first-occurrence dedup. -/
def extract_job_requirements (ctx : ExtractorCtx) (job_description : String) :
    JobRequirements :=
  if job_description = "" then
    ⟨[], [], [], [], [], [], [], [], [], []⟩
  else
    let text_lower := pyLower job_description
    let years := ctx.yearsMatches text_lower
    let education := educationLines job_description
    let st0 : ExtractState :=
      ⟨.responsibilities, false, false, [], [], [], [], [], [], []⟩
    let st := (job_description.splitOn "\n").foldl (processLine ctx) st0
    let certifications := ctx.CERTIFICATIONS.filter (fun cert => pyInStr cert text_lower)
    let skills := sortedDedup st.skill_candidates
    ⟨skills,
      st.qualifications,
      st.responsibilities,
      sortedDedup (st.keyword_candidates ++ skills),
      sortedDedup st.required_skills,
      sortedDedup st.preferred_skills,
      sortedDedup certifications,
      sortedDedup st.action_verbs,
      sortedDedup years,
      education.dedup⟩

/-- C9: requirement extraction on the empty string raises no exception
(total function) and returns the `JobRequirements` record with every field
the empty list, for every vocabulary content and years-pattern behaviour. -/
theorem extract_job_requirements_empty (ctx : ExtractorCtx) :
    extract_job_requirements ctx "" = ⟨[], [], [], [], [], [], [], [], [], []⟩ := by
  rfl

/-! ## Python value coercions used by the orchestrator and the parameter
normalizer -/

mutual
/-- Python `repr()` (ASCII model; the float rendering is a placeholder — no
verified property depends on the rendering of non-string scalars). -/
def pyReprV : PyVal → String
  | .none => "None"
  | .bool true => "True"
  | .bool false => "False"
  | .int n => toString n
  | .float q => toString q.num ++ "/" ++ toString q.den
  | .str s => "\x27" ++ s ++ "\x27"
  | .list l => "[" ++ pyReprL l ++ "]"
  | .dict f => "\x7b" ++ pyReprF f ++ "\x7d"

def pyReprL : PyList → String
  | .nil => ""
  | .cons v .nil => pyReprV v
  | .cons v (.cons w rest) => pyReprV v ++ ", " ++ pyReprL (.cons w rest)

def pyReprF : PyFields → String
  | .nil => ""
  | .cons k v .nil => "\x27" ++ k ++ "\x27: " ++ pyReprV v
  | .cons k v (.cons l w rest) =>
    "\x27" ++ k ++ "\x27: " ++ pyReprV v ++ ", " ++ pyReprF (.cons l w rest)
end

/-- Python `str()` coercion. -/
def pyStr : PyVal → String
  | .str s => s
  | v => pyReprV v

/-- Digits-only parse (Python `int(str)`; underscore separators are outside
the model). -/
def digitsToNat? (cs : List Char) : Option Nat :=
  if cs.isEmpty then Option.none
  else if cs.all Char.isDigit then
    some (cs.foldl (fun acc c => acc * 10 + (c.toNat - 48)) 0)
  else Option.none

def pyIntOfStr (s : String) : Option Int :=
  match (pyStrip s).data with
  | '-' :: rest => (digitsToNat? rest).map (fun n => -(n : Int))
  | '+' :: rest => (digitsToNat? rest).map (fun n => (n : Int))
  | t => (digitsToNat? t).map (fun n => (n : Int))

/-- Truncation toward zero (Python `int(float)`). -/
def ratTrunc (q : ℚ) : Int :=
  if 0 ≤ q then ⌊q⌋ else -⌊-q⌋

/-- Python `int(x)`: `Option.none` models the `TypeError`/`ValueError` the
callers catch. -/
def pyInt : PyVal → Option Int
  | .int n => some n
  | .bool b => some (if b then 1 else 0)
  | .float q => some (ratTrunc q)
  | .str s => pyIntOfStr s
  | _ => Option.none

/-- Decimal parse `[sign] digits [. digits]` (Python `float(str)`;
scientific notation and specials are outside the model). -/
def decimalToRat? (cs : List Char) : Option ℚ :=
  let intPart := cs.takeWhile Char.isDigit
  let rest := cs.dropWhile Char.isDigit
  match rest with
  | [] => (digitsToNat? intPart).map (fun n => (n : ℚ))
  | '.' :: fracs =>
    if intPart.isEmpty && fracs.isEmpty then Option.none
    else if fracs.all Char.isDigit then
      let ip := (intPart.foldl (fun acc c => acc * 10 + (c.toNat - 48)) 0 : ℚ)
      let fp := (fracs.foldl (fun acc c => acc * 10 + (c.toNat - 48)) 0 : ℚ)
      some (ip + fp / ((10 : ℚ) ^ fracs.length))
    else Option.none
  | _ => Option.none

def pyFloatOfStr (s : String) : Option ℚ :=
  match (pyStrip s).data with
  | '-' :: rest => (decimalToRat? rest).map (fun q => -q)
  | '+' :: rest => decimalToRat? rest
  | t => decimalToRat? t

/-- Python `float(x)`. -/
def pyFloat : PyVal → Option ℚ
  | .float q => some q
  | .int n => some (n : ℚ)
  | .bool b => some (if b then 1 else 0)
  | .str s => pyFloatOfStr s
  | _ => Option.none

/-- Python iteration `for x in v` (`Option.none` models the `TypeError` on a
non-iterable). -/
def pyEnum : PyVal → Option (List PyVal)
  | .list l => some l.toList
  | .str s => some (s.data.map (fun c => .str ⟨[c]⟩))
  | .dict f => some (f.toList.map (fun kv => .str kv.1))
  | _ => Option.none

/-! ## GenerationOrchestrator backfill
(`_validate_and_fix_sections`, `_generate_single_section`) -/

/-- A typed collaborator failure surfaced by `_call_openai_json` /
`_extract_response_json` (`TailoringPipelineError`, services.py:1962-2070). -/
inductive CallFailure : Type where
  | requestFailed
  | emptyOutput
  | malformedOutput
  deriving Repr, DecidableEq

/-- One parsed resume section dict `{"name": ..., "bullets": [...]}`. -/
structure Section where
  name : String
  bullets : List String
  deriving Repr, DecidableEq, Inhabited

/-- A bullet-detail dict (services.py:1817-1825).  The dicts produced by
`_generate_single_section` initially lack the `section`/`section_index` keys
(set later by the caller, services.py:887-890); that pre-state is modelled by
`""`/`0` placeholders which the caller always overwrites. -/
structure BulletDetail where
  id : String
  snippet_id : String
  text : String
  stretch : Int
  «section» : String
  section_index : Int
  bullet_index : Int
  metrics : Option PyVal
  deriving Repr, DecidableEq, Inhabited

/-- The bullet-parsing loop of `_generate_single_section`
(services.py:974-992): `Option.none` models a `ValueError` from `int(...)`
on a malformed `stretch`, which the surrounding `try` turns into the empty
result. -/
def parseFixBullets (stretch_level : Int) :
    List PyVal → Nat → Option (List String × List BulletDetail)
  | [], _ => some ([], [])
  | entry :: rest, idx =>
    match entry with
    | .dict d => do
      let text := pyStrip (pyStr ((d.get "text").getD (.str "")))
      let bullet_id := pyStr ((d.get "id").getD (.str ("fix-" ++ toString (idx + 1))))
      let stretch_val ← pyInt ((d.get "stretch").getD (.int stretch_level))
      let r ← parseFixBullets stretch_level rest (idx + 1)
      if text = "" then pure r
      else pure (text :: r.1,
        (⟨bullet_id, "", text, stretch_val, "", 0, (idx : Int), Option.none⟩ :
          BulletDetail) :: r.2)
    | _ => do
      let text := pyStrip (pyStr entry)
      let r ← parseFixBullets stretch_level rest (idx + 1)
      if text = "" then pure r
      else pure (text :: r.1,
        (⟨"fix-" ++ toString (idx + 1), "", text, stretch_level, "", 0,
          (idx : Int), Option.none⟩ : BulletDetail) :: r.2)

/-- `AgentKitTailoringService._generate_single_section`
(services.py:911-998).  The collaborator call is abstracted as `oracle`,
mapping the varying request inputs (section name, bullet count) to the
parsed JSON response or a typed failure; the `except` branch
(services.py:996-998) returns empty results on failure.  Token usage is not
modelled. -/
def generate_single_section (oracle : String → Int → Except CallFailure PyFields)
    (section_name : String) (bullet_count : Int) (stretch_level : Int) :
    List String × List BulletDetail :=
  match oracle section_name bullet_count with
  | .error _ => ([], [])
  | .ok response =>
    match (pyEnum ((response.get "bullets").getD (.list .nil))).bind
        (fun raw => parseFixBullets stretch_level raw 0) with
    | Option.none => ([], [])
    | some r => r

/-- Reason a section is scheduled for fixing (services.py:829-846). -/
inductive FixReason : Type where
  | missing
  | incomplete
  deriving Repr, DecidableEq

/-- State threaded through the fix loop of `_validate_and_fix_sections`;
`requests` instruments the `(section_name, bullet_count)` of each
`_generate_single_section` invocation. -/
structure FixState where
  sections : List Section
  flat_bullets : List String
  bullet_details : List BulletDetail
  requests : List (String × Int)

/-- Append `newBullets` to the first section named `name`. -/
def extendFirst : List Section → String → List String → List Section
  | [], _, _ => []
  | sec :: rest, name, nb =>
    if sec.name = name then { sec with bullets := sec.bullets ++ nb } :: rest
    else sec :: extendFirst rest name nb

/-- `existing_sections[section_name]["bullets"].extend(new_bullets)`
(services.py:878): the dict maps each name to its *last* occurrence in the
section list, and the extend mutates that object in place. -/
def extendLast (sections : List Section) (name : String) (nb : List String) :
    List Section :=
  (extendFirst sections.reverse name nb).reverse

/-- One iteration of the fix loop (services.py:855-894). -/
def applyFix (oracle : String → Int → Except CallFailure PyFields)
    (bullets_per_section : Int) (stretch_level : Int)
    (st : FixState) (fix : String × FixReason × Int) : FixState :=
  let section_name := fix.1
  let needed_bullets := if fix.2.1 = .incomplete then fix.2.2 else bullets_per_section
  let gen := generate_single_section oracle section_name needed_bullets stretch_level
  let st := { st with requests := st.requests ++ [(section_name, needed_bullets)] }
  if gen.1.isEmpty then st
  else
    let sections' :=
      if fix.2.1 = .missing then st.sections ++ [⟨section_name, gen.1⟩]
      else extendLast st.sections section_name gen.1
    let section_index : Int :=
      ((sections'.findIdx? (fun sec => sec.name = section_name)).getD
        (sections'.length - 1) : Nat)
    { st with
        sections := sections'
        flat_bullets := st.flat_bullets ++ gen.1
        bullet_details := st.bullet_details ++ gen.2.map
          (fun d => { d with «section» := section_name, section_index := section_index }) }

/-- The per-name missing/incomplete test (services.py:830-846).  The Python
`existing_sections` dict maps a name to its last occurrence, hence the
lookup on the reversed list. -/
def fixOf (sections : List Section) (bullets_per_section : Int) (name : String) :
    Option (String × FixReason × Int) :=
  match (sections.reverse.find? (fun sec => sec.name = name)) with
  | Option.none => some (name, FixReason.missing, bullets_per_section)
  | some sec =>
    if (sec.bullets.length : Int) < bullets_per_section then
      some (name, FixReason.incomplete, bullets_per_section - sec.bullets.length)
    else Option.none

/-- The missing/incomplete scan (services.py:829-846): one fix entry per
requested section that is absent or under-populated, carrying the deficit. -/
def sectionsToFix (sections : List Section) (requested_sections : List String)
    (bullets_per_section : Int) : List (String × FixReason × Int) :=
  requested_sections.filterMap (fixOf sections bullets_per_section)

/-- The reorder pass (services.py:896-907): requested order first (first
section matching each requested name), then any leftover sections, compared
by value. -/
def reorderSections (sections : List Section) (requested_sections : List String) :
    List Section :=
  let ordered := requested_sections.filterMap
    (fun name => sections.find? (fun sec => sec.name = name))
  ordered ++ sections.filter (fun sec => ¬ sec ∈ ordered)

/-- `AgentKitTailoringService._validate_and_fix_sections`
(services.py:804-909), instrumented with the list of backfill requests
issued.  Token usage is not modelled. -/
def validate_and_fix_sections (oracle : String → Int → Except CallFailure PyFields)
    (sections : List Section) (flat_bullets : List String)
    (bullet_details : List BulletDetail) (requested_sections : List String)
    (bullets_per_section : Int) (stretch_level : Int) :
    List Section × List String × List BulletDetail × List (String × Int) :=
  let fixes := sectionsToFix sections requested_sections bullets_per_section
  if fixes.isEmpty then (sections, flat_bullets, bullet_details, [])
  else
    let st := fixes.foldl (applyFix oracle bullets_per_section stretch_level)
      ⟨sections, flat_bullets, bullet_details, []⟩
    (reorderSections st.sections requested_sections, st.flat_bullets,
      st.bullet_details, st.requests)

theorem filter_eq_single_find? (p : α → Bool) (l : List α) (a : α)
    (h : l.filter p = [a]) : l.find? p = some a := by
  induction l with
  | nil => simp at h
  | cons x xs ih =>
    rw [List.filter_cons] at h
    by_cases hx : p x
    · rw [if_pos hx] at h
      have hxa : x = a := (List.cons_eq_cons.1 h).1
      rw [List.find?_cons_of_pos _ hx, hxa]
    · rw [if_neg hx] at h
      rw [List.find?_cons_of_neg _ hx]
      exact ih h

theorem unique_name_filter (l : List Section) (sec : Section) (s : String)
    (hnd : (l.map (fun c => c.name)).Nodup) (hmem : sec ∈ l) (hp : sec.name = s) :
    l.filter (fun c => c.name = s) = [sec] := by
  induction l with
  | nil => simp at hmem
  | cons h rest ih =>
    rw [List.map_cons, List.nodup_cons] at hnd
    rw [List.filter_cons]
    simp only [decide_eq_true_eq]
    by_cases hh : h.name = s
    · rw [if_pos hh]
      have hsec : sec = h := by
        rcases List.mem_cons.1 hmem with rfl | hr
        · rfl
        · refine absurd ?_ hnd.1
          rw [hh, ← hp]
          exact List.mem_map_of_mem _ hr
      have hrest : rest.filter (fun c => c.name = s) = [] := by
        rw [List.filter_eq_nil_iff]
        intro c hc hcs
        refine hnd.1 ?_
        rw [hh, ← show c.name = s by simpa using hcs]
        exact List.mem_map_of_mem _ hc
      rw [hrest, hsec]
    · rw [if_neg hh]
      have hsec : sec ∈ rest := by
        rcases List.mem_cons.1 hmem with rfl | hr
        · exact absurd hp hh
        · exact hr
      exact ih hnd.2 hsec

theorem filter_extendFirst_ne (l : List Section) (name s : String)
    (nb : List String) (hne : name ≠ s) :
    (extendFirst l name nb).filter (fun c => c.name = s) =
      l.filter (fun c => c.name = s) := by
  induction l with
  | nil => rfl
  | cons h rest ih =>
    simp only [extendFirst]
    by_cases hh : h.name = name
    · rw [if_pos hh]
      rw [List.filter_cons, List.filter_cons]
      have hns : ¬ (h.name = s) := by rw [hh]; exact hne
      simp only [decide_eq_true_eq]
      rw [if_neg hns, if_neg hns]
    · rw [if_neg hh]
      rw [List.filter_cons, List.filter_cons]
      simp only [decide_eq_true_eq]
      by_cases hs : h.name = s
      · rw [if_pos hs, if_pos hs, ih]
      · rw [if_neg hs, if_neg hs]
        exact ih

theorem filter_extendFirst_eq (l : List Section) (s : String)
    (nb : List String) (sec : Section)
    (h : l.filter (fun c => c.name = s) = [sec]) :
    (extendFirst l s nb).filter (fun c => c.name = s) =
      [{ sec with bullets := sec.bullets ++ nb }] := by
  induction l with
  | nil => simp at h
  | cons hd rest ih =>
    rw [List.filter_cons] at h
    simp only [decide_eq_true_eq] at h
    simp only [extendFirst]
    by_cases hh : hd.name = s
    · rw [if_pos hh] at h
      have hda : hd = sec := (List.cons_eq_cons.1 h).1
      have hrest : rest.filter (fun c => c.name = s) = [] := (List.cons_eq_cons.1 h).2
      rw [if_pos hh, List.filter_cons]
      simp only [decide_eq_true_eq]
      rw [if_pos (show ({ hd with bullets := hd.bullets ++ nb } : Section).name = s from hh)]
      rw [hrest, hda]
    · rw [if_neg hh] at h
      rw [if_neg hh, List.filter_cons]
      simp only [decide_eq_true_eq]
      rw [if_neg hh]
      exact ih h

theorem filter_extendLast_eq (l : List Section) (s : String)
    (nb : List String) (sec : Section)
    (h : l.filter (fun c => c.name = s) = [sec]) :
    (extendLast l s nb).filter (fun c => c.name = s) =
      [{ sec with bullets := sec.bullets ++ nb }] := by
  unfold extendLast
  rw [List.filter_reverse]
  rw [filter_extendFirst_eq l.reverse s nb sec (by rw [List.filter_reverse, h]; rfl)]
  rfl

theorem filter_extendLast_ne (l : List Section) (name s : String)
    (nb : List String) (hne : name ≠ s) :
    (extendLast l name nb).filter (fun c => c.name = s) =
      l.filter (fun c => c.name = s) := by
  unfold extendLast
  rw [List.filter_reverse, filter_extendFirst_ne l.reverse name s nb hne,
    List.filter_reverse, List.reverse_reverse]

theorem applyFix_requests (oracle : String → Int → Except CallFailure PyFields)
    (bps stretch : Int) (st : FixState) (f : String × FixReason × Int) :
    (applyFix oracle bps stretch st f).requests =
      st.requests ++ [(f.1, if f.2.1 = .incomplete then f.2.2 else bps)] := by
  simp only [applyFix]
  split <;> split <;> rfl

theorem applyFix_filter_sections_ne
    (oracle : String → Int → Except CallFailure PyFields)
    (bps stretch : Int) (st : FixState) (f : String × FixReason × Int)
    (s : String) (hne : f.1 ≠ s) :
    (applyFix oracle bps stretch st f).sections.filter (fun c => c.name = s) =
      st.sections.filter (fun c => c.name = s) := by
  simp only [applyFix]
  split
  · split
    · rfl
    · split
      · simp [List.filter_append, hne]
      · exact filter_extendLast_ne _ f.1 s _ hne
  · split
    · rfl
    · split
      · simp [List.filter_append, hne]
      · exact filter_extendLast_ne _ f.1 s _ hne

theorem foldl_applyFix_ne (oracle : String → Int → Except CallFailure PyFields)
    (bps stretch : Int) (s : String) :
    ∀ (fixes : List (String × FixReason × Int)) (st : FixState),
      (∀ f ∈ fixes, f.1 ≠ s) →
      ((fixes.foldl (applyFix oracle bps stretch) st).sections.filter
          (fun c => c.name = s) = st.sections.filter (fun c => c.name = s)) ∧
      ((fixes.foldl (applyFix oracle bps stretch) st).requests.filter
          (fun r => r.1 = s) = st.requests.filter (fun r => r.1 = s)) := by
  intro fixes
  induction fixes with
  | nil => intro st _; exact ⟨rfl, rfl⟩
  | cons f rest ih =>
    intro st hall
    have hf : f.1 ≠ s := hall f (List.mem_cons_self f rest)
    have hrest : ∀ g ∈ rest, g.1 ≠ s := fun g hg => hall g (List.mem_cons_of_mem f hg)
    rw [List.foldl_cons]
    have hih := ih (applyFix oracle bps stretch st f) hrest
    refine ⟨?_, ?_⟩
    · rw [hih.1, applyFix_filter_sections_ne oracle bps stretch st f s hf]
    · rw [hih.2, applyFix_requests, List.filter_append]
      have : ([(f.1, if f.2.1 = FixReason.incomplete then f.2.2 else bps)].filter
          (fun r => r.1 = s)) = [] := by simp [hf]
      rw [this, List.append_nil]

theorem fixOf_name (sections : List Section) (bps : Int) (name : String)
    (f : String × FixReason × Int) (h : fixOf sections bps name = some f) :
    f.1 = name := by
  unfold fixOf at h
  split at h
  · exact (Option.some.inj h) ▸ rfl
  · split at h
    · exact (Option.some.inj h) ▸ rfl
    · exact absurd h (by simp)

theorem applyFix_sections_success
    (oracle : String → Int → Except CallFailure PyFields)
    (bps stretch : Int) (st : FixState) (s : String) (reason : FixReason) (d : Int)
    (hne : (generate_single_section oracle s
        (if reason = FixReason.incomplete then d else bps) stretch).1.isEmpty = false) :
    (applyFix oracle bps stretch st (s, reason, d)).sections =
      (if reason = FixReason.missing then
        st.sections ++ [⟨s, (generate_single_section oracle s
          (if reason = FixReason.incomplete then d else bps) stretch).1⟩]
      else extendLast st.sections s (generate_single_section oracle s
        (if reason = FixReason.incomplete then d else bps) stretch).1) := by
  simp only [applyFix, hne, Bool.false_eq_true, if_false]

theorem filter_reorderSections (l : List Section) (r1 r2 : List String)
    (s : String) (hs1 : s ∉ r1) (hs2 : s ∉ r2) (secF : Section)
    (hfil : l.filter (fun c => c.name = s) = [secF]) :
    (reorderSections l (r1 ++ s :: r2)).filter (fun c => c.name = s) = [secF] := by
  have hsecF_mem : secF ∈ l.filter (fun c => c.name = s) := by
    rw [hfil]; exact List.mem_singleton.2 rfl
  have hsecF_name : secF.name = s := by
    simpa using (List.mem_filter.1 hsecF_mem).2
  have hfind : l.find? (fun c => c.name = s) = some secF :=
    filter_eq_single_find? _ l secF hfil
  unfold reorderSections
  have hordered : (r1 ++ s :: r2).filterMap
      (fun name => l.find? (fun sec => sec.name = name)) =
      r1.filterMap (fun name => l.find? (fun sec => sec.name = name)) ++
        (secF :: r2.filterMap (fun name => l.find? (fun sec => sec.name = name))) := by
    rw [List.filterMap_append, List.filterMap_cons]
    rw [hfind]
  have hpartNe : ∀ (r : List String), s ∉ r →
      (r.filterMap (fun name => l.find? (fun sec => sec.name = name))).filter
        (fun c => c.name = s) = [] := by
    intro r hsr
    rw [List.filter_eq_nil_iff]
    intro sec hsec hps
    rcases List.mem_filterMap.1 hsec with ⟨name, hname, hgn⟩
    have hsn : sec.name = name := by simpa using List.find?_some hgn
    have : sec.name = s := by simpa using hps
    exact hsr (by rw [← hsn, this] at hname; exact hname)
  rw [hordered]
  rw [List.filter_append, List.filter_append]
  rw [hpartNe r1 hs1]
  rw [List.filter_cons]
  simp only [decide_eq_true_eq]
  rw [if_pos hsecF_name, hpartNe r2 hs2]
  have hmemOrd : secF ∈ r1.filterMap (fun name => l.find? (fun sec => sec.name = name)) ++
      (secF :: r2.filterMap (fun name => l.find? (fun sec => sec.name = name))) := by
    exact List.mem_append_right _ (List.mem_cons_self _ _)
  have hleft : (l.filter (fun sec =>
      ¬ sec ∈ r1.filterMap (fun name => l.find? (fun sec => sec.name = name)) ++
        (secF :: r2.filterMap (fun name => l.find? (fun sec => sec.name = name))))).filter
        (fun c => c.name = s) = [] := by
    rw [List.filter_eq_nil_iff]
    intro sec hsec hps
    have h1 := List.mem_filter.1 hsec
    have hsecl : sec ∈ l.filter (fun c => c.name = s) :=
      List.mem_filter.2 ⟨h1.1, hps⟩
    rw [hfil] at hsecl
    have : sec = secF := List.mem_singleton.1 hsecl
    subst this
    have := h1.2
    simp only [decide_eq_true_eq] at this
    exact this hmemOrd
  rw [hleft]
  simp

/-- C5: for every requested section whose bullet count after initial
generation (0 when the section is missing entirely) is below
`bullets_per_section`, the fix loop of `_validate_and_fix_sections` issues
exactly one backfill request for that section, asking for exactly the
deficit `d = bullets_per_section - current_count`; and if that request
returns exactly `d` non-empty bullets, the section ends with exactly
`bullets_per_section` bullets in the final section list.  The requested
names and the parsed section names are assumed duplicate-free (the pipeline
normalizes the requested list and the model generates one section dict per
name). -/
theorem backfill_requests_exact
    (oracle : String → Int → Except CallFailure PyFields)
    (sections : List Section) (flat : List String) (details : List BulletDetail)
    (requested : List String) (bps stretch : Int) (s : String) (cnt d : Int)
    (hreq : requested.Nodup)
    (hsec : (sections.map (fun c => c.name)).Nodup)
    (hmem : s ∈ requested)
    (hcnt : cnt = ((sections.reverse.find? (fun sec => sec.name = s)).map
      (fun sec => (sec.bullets.length : Int))).getD 0)
    (hlt : cnt < bps)
    (hd : d = bps - cnt) :
    ((validate_and_fix_sections oracle sections flat details requested bps
        stretch).2.2.2.filter (fun r => r.1 = s)) = [(s, d)] ∧
    (((generate_single_section oracle s d stretch).1.length : Int) = d →
      ((validate_and_fix_sections oracle sections flat details requested bps
          stretch).1.filter (fun sec => sec.name = s)).map
        (fun sec => (sec.bullets.length : Int)) = [bps]) := by
  classical
  obtain ⟨r1, r2, hre⟩ := List.append_of_mem hmem
  subst hre
  have hs1 : s ∉ r1 := fun h =>
    (List.disjoint_of_nodup_append hreq) h (List.mem_cons_self s r2)
  have hs2 : s ∉ r2 := by
    have h2 : (s :: r2).Nodup := hreq.of_append_right
    exact (List.nodup_cons.1 h2).1
  have key : ∃ (reasonS : FixReason),
      fixOf sections bps s = some (s, reasonS, d) ∧
      (if reasonS = FixReason.incomplete then d else bps) = d ∧
      (∀ (l : List Section),
        l.filter (fun c => c.name = s) = sections.filter (fun c => c.name = s) →
        ∃ secF,
          ((if reasonS = FixReason.missing then
              l ++ [⟨s, (generate_single_section oracle s
                (if reasonS = FixReason.incomplete then d else bps) stretch).1⟩]
            else extendLast l s (generate_single_section oracle s
              (if reasonS = FixReason.incomplete then d else bps) stretch).1).filter
            (fun c => c.name = s) = [secF]) ∧
          (secF.bullets.length : Int) =
            cnt + ((generate_single_section oracle s d stretch).1.length : Int)) := by
    rcases hfind : sections.reverse.find? (fun sec => sec.name = s) with _ | sec
    · have hcnt0 : cnt = 0 := by rw [hcnt, hfind]; rfl
      have hdb : d = bps := by omega
      refine ⟨FixReason.missing, ?_, ?_, ?_⟩
      · unfold fixOf
        rw [hfind, hdb]
      · rw [if_neg (by decide : ¬ (FixReason.missing = FixReason.incomplete)), hdb]
      · intro l hl
        have hfilnil : sections.filter (fun c => c.name = s) = [] := by
          rw [List.filter_eq_nil_iff]
          intro c hc hp
          exact (List.find?_eq_none.1 hfind) c (List.mem_reverse.2 hc) hp
        refine ⟨⟨s, (generate_single_section oracle s
          (if FixReason.missing = FixReason.incomplete then d else bps) stretch).1⟩, ?_, ?_⟩
        · rw [if_pos rfl, List.filter_append, hl, hfilnil, List.filter_cons]
          simp
        · simp only
          rw [if_neg (by decide : ¬ (FixReason.missing = FixReason.incomplete)), ← hdb,
            hcnt0]
          omega
    · have hcnts : cnt = (sec.bullets.length : Int) := by rw [hcnt, hfind]; rfl
      have hcond : (sec.bullets.length : Int) < bps := by omega
      have hsecmem : sec ∈ sections := List.mem_reverse.1 (List.mem_of_find?_eq_some hfind)
      have hsecp : sec.name = s := by simpa using List.find?_some hfind
      have hfilsec := unique_name_filter sections sec s hsec hsecmem hsecp
      refine ⟨FixReason.incomplete, ?_, if_pos rfl, ?_⟩
      · unfold fixOf
        rw [hfind]
        show (if (sec.bullets.length : Int) < bps then
            some (s, FixReason.incomplete, bps - (sec.bullets.length : Int))
          else Option.none) = some (s, FixReason.incomplete, d)
        rw [if_pos hcond]
        have hbd : bps - (sec.bullets.length : Int) = d := by omega
        rw [hbd]
      · intro l hl
        refine ⟨{ sec with bullets := sec.bullets ++ (generate_single_section oracle s
          (if FixReason.incomplete = FixReason.incomplete then d else bps) stretch).1 }, ?_, ?_⟩
        · rw [if_neg (by decide : ¬ (FixReason.incomplete = FixReason.missing))]
          exact filter_extendLast_eq l s _ sec (hl.trans hfilsec)
        · simp only [if_pos rfl, List.length_append]
          push_cast
          omega
  obtain ⟨reasonS, hfixS, hneed, hstep⟩ := key
  have hfixes : sectionsToFix sections (r1 ++ s :: r2) bps =
      (r1.filterMap (fixOf sections bps)) ++
        ((s, reasonS, d) :: r2.filterMap (fixOf sections bps)) := by
    unfold sectionsToFix
    rw [List.filterMap_append, List.filterMap_cons, hfixS]
  have hAne : ∀ f ∈ r1.filterMap (fixOf sections bps), f.1 ≠ s := by
    intro f hf
    rcases List.mem_filterMap.1 hf with ⟨name, hn, he⟩
    rw [fixOf_name _ _ _ _ he]
    intro hh
    exact hs1 (hh ▸ hn)
  have hBne : ∀ f ∈ r2.filterMap (fixOf sections bps), f.1 ≠ s := by
    intro f hf
    rcases List.mem_filterMap.1 hf with ⟨name, hn, he⟩
    rw [fixOf_name _ _ _ _ he]
    intro hh
    exact hs2 (hh ▸ hn)
  have hval : validate_and_fix_sections oracle sections flat details
      (r1 ++ s :: r2) bps stretch =
      (reorderSections (((r2.filterMap (fixOf sections bps)).foldl
          (applyFix oracle bps stretch)
          (applyFix oracle bps stretch
            ((r1.filterMap (fixOf sections bps)).foldl (applyFix oracle bps stretch)
              ⟨sections, flat, details, []⟩)
            (s, reasonS, d))).sections) (r1 ++ s :: r2),
        ((r2.filterMap (fixOf sections bps)).foldl (applyFix oracle bps stretch)
          (applyFix oracle bps stretch
            ((r1.filterMap (fixOf sections bps)).foldl (applyFix oracle bps stretch)
              ⟨sections, flat, details, []⟩)
            (s, reasonS, d))).flat_bullets,
        ((r2.filterMap (fixOf sections bps)).foldl (applyFix oracle bps stretch)
          (applyFix oracle bps stretch
            ((r1.filterMap (fixOf sections bps)).foldl (applyFix oracle bps stretch)
              ⟨sections, flat, details, []⟩)
            (s, reasonS, d))).bullet_details,
        ((r2.filterMap (fixOf sections bps)).foldl (applyFix oracle bps stretch)
          (applyFix oracle bps stretch
            ((r1.filterMap (fixOf sections bps)).foldl (applyFix oracle bps stretch)
              ⟨sections, flat, details, []⟩)
            (s, reasonS, d))).requests) := by
    simp only [validate_and_fix_sections]
    rw [hfixes]
    have hne : ((r1.filterMap (fixOf sections bps)) ++
        ((s, reasonS, d) :: r2.filterMap (fixOf sections bps))).isEmpty = false := by
      simp
    rw [hne]
    simp only [Bool.false_eq_true, if_false, List.foldl_append, List.foldl_cons]
  set st1 := (r1.filterMap (fixOf sections bps)).foldl (applyFix oracle bps stretch)
    (⟨sections, flat, details, []⟩ : FixState) with hst1
  set st2 := applyFix oracle bps stretch st1 (s, reasonS, d) with hst2
  set st3 := (r2.filterMap (fixOf sections bps)).foldl (applyFix oracle bps stretch) st2
    with hst3
  have hst1P := foldl_applyFix_ne oracle bps stretch s (r1.filterMap (fixOf sections bps))
    ⟨sections, flat, details, []⟩ hAne
  have hst3P := foldl_applyFix_ne oracle bps stretch s (r2.filterMap (fixOf sections bps))
    st2 hBne
  constructor
  · rw [hval]
    have hreq2 : st2.requests.filter (fun r => r.1 = s) = [(s, d)] := by
      rw [hst2, applyFix_requests]
      simp only
      rw [hneed, List.filter_append, hst1P.2]
      simp
    calc st3.requests.filter (fun r => r.1 = s)
        = st2.requests.filter (fun r => r.1 = s) := hst3P.2
      _ = [(s, d)] := hreq2
  · intro hsucc
    have hdpos : 0 < d := by omega
    have hgen : (generate_single_section oracle s d stretch).1.isEmpty = false := by
      cases hgl : (generate_single_section oracle s d stretch).1 with
      | nil => rw [hgl] at hsucc; simp at hsucc; omega
      | cons a t => rfl
    obtain ⟨secF, hfil2, hlenF⟩ := hstep st1.sections hst1P.1
    have hgen' : (generate_single_section oracle s
        (if reasonS = FixReason.incomplete then d else bps) stretch).1.isEmpty = false := by
      rw [hneed]
      exact hgen
    have hst2sec : st2.sections.filter (fun c => c.name = s) = [secF] := by
      rw [hst2, applyFix_sections_success oracle bps stretch st1 s reasonS d hgen']
      exact hfil2
    have hst3sec : st3.sections.filter (fun c => c.name = s) = [secF] :=
      hst3P.1.trans hst2sec
    have hfinal := filter_reorderSections st3.sections r1 r2 s hs1 hs2 secF hst3sec
    rw [hval]
    calc ((reorderSections st3.sections (r1 ++ s :: r2)).filter
          (fun sec => sec.name = s)).map (fun sec => (sec.bullets.length : Int))
        = [secF].map (fun sec => (sec.bullets.length : Int)) := by rw [hfinal]
      _ = [(secF.bullets.length : Int)] := rfl
      _ = [bps] := by rw [hlenF, hsucc]; congr 1; omega

/-- A concrete backfill collaborator used to witness the backfill theorem:
it always answers with one bullet object. -/
def fixOracleW : String → Int → Except CallFailure PyFields :=
  fun _ _ => Except.ok (.cons "bullets"
    (.list (.cons (.dict (.cons "text" (.str "Built SQL validation checks") .nil)) .nil))
    .nil)

theorem backfill_requests_exact_witness :
    (["Skills"] : List String).Nodup ∧
    (([⟨"Skills", ["b1", "b2"]⟩] : List Section).map (fun c => c.name)).Nodup ∧
    "Skills" ∈ (["Skills"] : List String) ∧
    ((2 : Int) = ((([(⟨"Skills", ["b1", "b2"]⟩ : Section)] : List Section).reverse.find?
      (fun sec => sec.name = "Skills")).map
        (fun sec => (sec.bullets.length : Int))).getD 0) ∧
    ((2 : Int) < 3) ∧ ((1 : Int) = 3 - 2) ∧
    ((validate_and_fix_sections fixOracleW [⟨"Skills", ["b1", "b2"]⟩] ["b1", "b2"] []
        ["Skills"] 3 2).2.2.2.filter (fun r => r.1 = "Skills")) = [("Skills", 1)] ∧
    ((generate_single_section fixOracleW "Skills" 1 2).1.length : Int) = 1 ∧
    ((validate_and_fix_sections fixOracleW [⟨"Skills", ["b1", "b2"]⟩] ["b1", "b2"] []
        ["Skills"] 3 2).1.filter (fun sec => sec.name = "Skills")).map
      (fun sec => (sec.bullets.length : Int)) = [3] := by
  have h := backfill_requests_exact fixOracleW [⟨"Skills", ["b1", "b2"]⟩]
    ["b1", "b2"] [] ["Skills"] 3 2 "Skills" 2 1
    (by decide) (by decide) (by decide) (by decide) (by decide) (by decide)
  exact ⟨by decide, by decide, by decide, by decide, by decide, by decide,
    h.1, by decide, h.2 (by decide)⟩

/-! ## GuardrailValidator (`_apply_guardrails`, `_regenerate_bullets`) and the
replacement step of `_generate_resume_package` (services.py:753-783) -/

/-- An exception escaping the guardrail stage: either the typed collaborator
failure raised by `_call_openai_json`, or a Python runtime error
(`TypeError` / `ValueError` / `AttributeError`) raised while consuming a
response of an unexpected shape — neither is caught on this path. -/
inductive PipeError : Type where
  | callFailure (e : CallFailure)
  | runtimeError
  deriving Repr, DecidableEq

/-- `GuardrailFinding.to_dict()` (services.py:151-167). -/
structure Finding where
  snippet_id : String
  bullet_id : String
  status : String
  reasons : List String
  deriving Repr, DecidableEq, Inhabited

/-- One entry of the `flagged` list (services.py:1076-1085). -/
structure FlaggedBullet where
  bullet_id : String
  snippet_id : String
  status : String
  reasons : List String
  original_text : String
  deriving Repr, DecidableEq, Inhabited

/-- One replacement record built by `_regenerate_bullets`
(services.py:1174-1178); the `metrics` key may hold Python `None`, modelled
as `Option.none`. -/
structure Replacement where
  text : String
  stretch : Int
  metrics : Option PyVal
  deriving Repr, DecidableEq, Inhabited

/-- Python dict assignment `d[k] = v`: overwrite in place, else append. -/
def pyDictInsert (d : List (String × α)) (k : String) (v : α) : List (String × α) :=
  if (d.find? (fun kv => kv.1 = k)).isSome then
    d.map (fun kv => if kv.1 = k then (k, v) else kv)
  else d ++ [(k, v)]

/-- The findings loop of `_apply_guardrails` (services.py:1063-1085): one
`GuardrailFinding` per entry, and a flagged record for every non-"ok"
status.  A non-dict entry raises (`.get` on it fails). -/
def collectFindings (bullet_details : List BulletDetail) :
    List PyVal → Except PipeError (List Finding × List FlaggedBullet)
  | [] => .ok ([], [])
  | v :: rest =>
    match v with
    | .dict f => do
      let snippet_id := pyStr ((f.get "snippet_id").getD (.str ""))
      let bullet_id := pyStr ((f.get "bullet_id").getD (.str ""))
      let status0 := pyLower (pyStr ((f.get "status").getD (.str "ok")))
      let status := if status0 = "" then "ok" else status0
      let rv := (f.get "reasons").getD .none
      let reasons ← if pyTruthy rv then
          (pyEnum rv).elim (Except.error PipeError.runtimeError)
            (fun l => Except.ok (l.map pyStr))
        else .ok []
      let r ← collectFindings bullet_details rest
      let item : Finding := ⟨snippet_id, bullet_id, status, reasons⟩
      if status = "reject" ∨ status = "needs_revision" then
        pure (item :: r.1,
          (⟨bullet_id, snippet_id, status, reasons,
            ((bullet_details.find? (fun d => d.id = bullet_id)).map
              (fun d => d.text)).getD ""⟩ : FlaggedBullet) :: r.2)
      else
        pure (item :: r.1, r.2)
    | _ => .error .runtimeError

/-- The replacements loop of `_regenerate_bullets` (services.py:1168-1178).
`str(item.get("bullet_id"))` renders a missing id as `"None"` (truthy); an
empty string is skipped; `int(...)` on a malformed `stretch` raises. -/
def buildReplacements (stretch_level : Int) (acc : List (String × Replacement)) :
    List PyVal → Except PipeError (List (String × Replacement))
  | [] => .ok acc
  | item :: rest =>
    match item with
    | .dict f =>
      let bullet_id := pyStr ((f.get "bullet_id").getD .none)
      if bullet_id = "" then buildReplacements stretch_level acc rest
      else do
        let stretch_val ← (pyInt ((f.get "stretch").getD (.int stretch_level))).elim
          (Except.error PipeError.runtimeError) Except.ok
        let r : Replacement :=
          ⟨pyStrip (pyStr ((f.get "text").getD (.str ""))), stretch_val, f.get "metrics"⟩
        buildReplacements stretch_level (pyDictInsert acc bullet_id r) rest
    | _ => .error .runtimeError

/-- `AgentKitTailoringService._regenerate_bullets` (services.py:1110-1180).
The collaborator call result is `regenCall`; flagged bullets whose snippet id
is unknown are dropped from the request, and if no request remains the call
is skipped.  Token usage and the debug payload are not modelled. -/
def regenerate_bullets (flagged : List FlaggedBullet)
    (snippet_map : List (String × ExperienceSnippet)) (stretch_level : Int)
    (regenCall : Except CallFailure PyFields) :
    Except PipeError (List (String × Replacement)) :=
  if flagged.isEmpty then .ok []
  else
    let requests := flagged.filter (fun item =>
      ((snippet_map.find? (fun kv => kv.1 = item.snippet_id)).isSome))
    if requests.isEmpty then .ok []
    else do
      let regen_response ← regenCall.mapError PipeError.callFailure
      let rv := (regen_response.get "replacements").getD .none
      let raw ← if pyTruthy rv then
          (pyEnum rv).elim (Except.error PipeError.runtimeError) Except.ok
        else .ok []
      buildReplacements stretch_level [] raw

/-- `AgentKitTailoringService._apply_guardrails` (services.py:1000-1108).
The audit call result is `guardCall`; an entirely empty bullet list skips
both calls.  Token usage and the debug payload are not modelled. -/
def apply_guardrails (bullet_details : List BulletDetail)
    (snippet_map : List (String × ExperienceSnippet)) (stretch_level : Int)
    (guardCall regenCall : Except CallFailure PyFields) :
    Except PipeError (List Finding × List (String × Replacement)) :=
  if bullet_details.isEmpty then .ok ([], [])
  else do
    let guard_response ← guardCall.mapError PipeError.callFailure
    let fr := (guard_response.get "findings").getD .none
    let findings_raw ← if pyTruthy fr then
        (pyEnum fr).elim (Except.error PipeError.runtimeError) Except.ok
      else .ok []
    let r ← collectFindings bullet_details findings_raw
    let replacements ← if r.2.isEmpty then .ok []
      else regenerate_bullets r.2 snippet_map stretch_level regenCall
    .ok (r.1, replacements)

/-- Ascending lexicographic comparison of `(section_index, bullet_index)`
keys (Python tuple `<`). -/
def pairLt (a b : Int × Int) : Bool :=
  a.1 < b.1 || (a.1 = b.1 && a.2 < b.2)

/-- Stable insertion for the ascending sort. -/
def insertAscBy (key : α → Int × Int) (x : α) : List α → List α
  | [] => [x]
  | y :: ys => if pairLt (key y) (key x) then y :: insertAscBy key x ys else x :: y :: ys

/-- Stable ascending sort on `(section_index, bullet_index)` — extensionally
the Python `sorted` of services.py:1839-1842. -/
def stableSortAsc (key : α → Int × Int) : List α → List α
  | [] => []
  | x :: xs => insertAscBy key x (stableSortAsc key xs)

/-- `setdefault`-and-append grouping (services.py:1844-1847). -/
def groupAppend (m : List ((Int × String) × List String)) (k : Int × String)
    (t : String) : List ((Int × String) × List String) :=
  if (m.find? (fun kv => kv.1 = k)).isSome then
    m.map (fun kv => if kv.1 = k then (kv.1, kv.2 ++ [t]) else kv)
  else m ++ [(k, [t])]

/-- `AgentKitTailoringService._compose_sections_from_details`
(services.py:1835-1858). -/
def compose_sections_from_details (details : List BulletDetail) :
    List Section × List String :=
  let ordered := stableSortAsc (fun d => (d.section_index, d.bullet_index)) details
  let m := ordered.foldl (fun m d => groupAppend m (d.section_index, d.«section») d.text) []
  m.foldl (fun acc kv =>
    let cleaned := kv.2.filter (fun t => ¬ (t = ""))
    if cleaned.isEmpty then acc
    else (acc.1 ++ [⟨kv.1.2, cleaned⟩], acc.2 ++ cleaned)) ([], [])

/-- The replacement-application step of `_generate_resume_package`
(services.py:770-780): build the id-keyed lookup dict, update the matching
details in place, and take the dict's values. -/
def updateDetails (details : List BulletDetail)
    (repl : List (String × Replacement)) : List BulletDetail :=
  let bullet_lookup := details.foldl (fun m d => pyDictInsert m d.id d) []
  let updated := repl.foldl (fun m kv =>
    if (m.find? (fun e => e.1 = kv.1)).isSome then
      m.map (fun e => if e.1 = kv.1 then
        (e.1, { e.2 with
                  text := kv.2.text
                  stretch := kv.2.stretch
                  metrics := kv.2.metrics })
      else e)
    else m) bullet_lookup
  updated.map (fun e => e.2)

/-- The guardrail tail of `_generate_resume_package` (services.py:753-783):
run the guardrail stage; on success, either leave sections / flat bullets /
details untouched (no replacements) or overwrite the matching details and
rebuild sections and the flat list from them. -/
def guardrails_pipeline_tail (bullet_details : List BulletDetail)
    (sections : List Section) (flat : List String)
    (snippet_map : List (String × ExperienceSnippet)) (stretch_level : Int)
    (guardCall regenCall : Except CallFailure PyFields) :
    Except PipeError (List Section × List String × List BulletDetail × List Finding) :=
  match apply_guardrails bullet_details snippet_map stretch_level guardCall regenCall with
  | .error e => .error e
  | .ok r =>
    if r.2.isEmpty then .ok (sections, flat, bullet_details, r.1)
    else
      let updated := updateDetails bullet_details r.2
      let composed := compose_sections_from_details updated
      .ok (composed.1, composed.2, updated, r.1)

theorem unique_key_filter {α : Type _} (key : α → String) (l : List α) (a : α)
    (s : String) (hnd : (l.map key).Nodup) (hmem : a ∈ l) (hk : key a = s) :
    l.filter (fun x => key x = s) = [a] := by
  induction l with
  | nil => simp at hmem
  | cons h rest ih =>
    rw [List.map_cons, List.nodup_cons] at hnd
    rw [List.filter_cons]
    simp only [decide_eq_true_eq]
    by_cases hh : key h = s
    · rw [if_pos hh]
      have hsec : a = h := by
        rcases List.mem_cons.1 hmem with rfl | hr
        · rfl
        · refine absurd ?_ hnd.1
          rw [hh, ← hk]
          exact List.mem_map_of_mem _ hr
      have hrest : rest.filter (fun x => key x = s) = [] := by
        rw [List.filter_eq_nil_iff]
        intro c hc hcs
        refine hnd.1 ?_
        rw [hh, ← show key c = s by simpa using hcs]
        exact List.mem_map_of_mem _ hc
      rw [hrest, hsec]
    · rw [if_neg hh]
      have hsec : a ∈ rest := by
        rcases List.mem_cons.1 hmem with rfl | hr
        · exact absurd hk hh
        · exact hr
      exact ih hnd.2 hsec

theorem foldInsert_eq (details : List BulletDetail) :
    ∀ (acc : List (String × BulletDetail)),
      (∀ d ∈ details, (acc.find? (fun e => e.1 = d.id)) = Option.none) →
      ((details.map (fun d => d.id)).Nodup) →
      details.foldl (fun m d => pyDictInsert m d.id d) acc =
        acc ++ details.map (fun d => (d.id, d)) := by
  induction details with
  | nil => intro acc _ _; simp
  | cons d rest ih =>
    intro acc hacc hnd
    rw [List.map_cons, List.nodup_cons] at hnd
    rw [List.foldl_cons]
    have hins : pyDictInsert acc d.id d = acc ++ [(d.id, d)] := by
      unfold pyDictInsert
      rw [hacc d (List.mem_cons_self d rest)]
      rfl
    rw [hins]
    rw [ih (acc ++ [(d.id, d)]) ?_ hnd.2]
    · simp
    · intro x hx
      rw [List.find?_eq_none]
      intro e he
      rcases List.mem_append.1 he with h1 | h2
      · exact (List.find?_eq_none.1 (hacc x (List.mem_cons_of_mem d hx))) e h1
      · have he2 : e = (d.id, d) := by simpa using h2
        subst he2
        simp only [decide_eq_true_eq]
        intro heq
        exact hnd.1 (heq ▸ List.mem_map_of_mem _ hx)

theorem foldUpdate_eq (repl : List (String × Replacement))
    (hrnd : (repl.map (fun kv => kv.1)).Nodup) :
    ∀ (ds : List BulletDetail) (g : BulletDetail → BulletDetail),
      (∀ x, (g x).id = x.id) →
      repl.foldl (fun m kv =>
          if (m.find? (fun e => e.1 = kv.1)).isSome then
            m.map (fun e => if e.1 = kv.1 then
              (e.1, { e.2 with
                        text := kv.2.text
                        stretch := kv.2.stretch
                        metrics := kv.2.metrics })
            else e)
          else m) (ds.map (fun d => (d.id, g d))) =
        ds.map (fun d => (d.id,
          match repl.find? (fun kv => kv.1 = d.id) with
          | some kv => { g d with
                           text := kv.2.text
                           stretch := kv.2.stretch
                           metrics := kv.2.metrics }
          | Option.none => g d)) := by
  induction repl with
  | nil =>
    intro ds g _
    simp [List.find?]
  | cons kv rest ih =>
    intro ds g hg
    rw [List.map_cons, List.nodup_cons] at hrnd
    rw [List.foldl_cons]
    have hstep : (if ((ds.map (fun d => (d.id, g d))).find?
          (fun e => e.1 = kv.1)).isSome then
          (ds.map (fun d => (d.id, g d))).map (fun e => if e.1 = kv.1 then
            (e.1, { e.2 with
                      text := kv.2.text
                      stretch := kv.2.stretch
                      metrics := kv.2.metrics })
          else e)
        else (ds.map (fun d => (d.id, g d)))) =
        ds.map (fun d => (d.id,
          if d.id = kv.1 then
            { g d with
                text := kv.2.text
                stretch := kv.2.stretch
                metrics := kv.2.metrics }
          else g d)) := by
      by_cases hpres : ((ds.map (fun d => (d.id, g d))).find?
          (fun e => e.1 = kv.1)).isSome
      · rw [if_pos hpres, List.map_map]
        refine List.map_congr_left ?_
        intro d _
        by_cases hdk : d.id = kv.1
        · simp [Function.comp, hdk]
        · simp [Function.comp, hdk]
      · rw [if_neg hpres]
        refine List.map_congr_left ?_
        intro d hd
        have hdk : ¬ (d.id = kv.1) := by
          intro hdk
          refine hpres ?_
          rw [List.find?_isSome]
          exact ⟨(d.id, g d), List.mem_map_of_mem _ hd, by simpa using hdk⟩
        rw [if_neg hdk]
    rw [hstep]
    have hg1 : ∀ x, ((fun y => if y.id = kv.1 then
        { g y with
            text := kv.2.text
            stretch := kv.2.stretch
            metrics := kv.2.metrics }
      else g y) x).id = x.id := by
      intro x
      show (if x.id = kv.1 then
          ({ g x with
               text := kv.2.text
               stretch := kv.2.stretch
               metrics := kv.2.metrics } : BulletDetail)
        else g x).id = x.id
      by_cases hx : x.id = kv.1
      · rw [if_pos hx]; exact hg x
      · rw [if_neg hx]; exact hg x
    have hrw := ih hrnd.2 ds (fun y => if y.id = kv.1 then
        ({ g y with
             text := kv.2.text
             stretch := kv.2.stretch
             metrics := kv.2.metrics } : BulletDetail)
      else g y) hg1
    rw [hrw]
    refine List.map_congr_left ?_
    intro d _
    dsimp only
    by_cases hdk : d.id = kv.1
    · have hfind1 : (kv :: rest).find? (fun kv' => kv'.1 = d.id) = some kv := by
        rw [List.find?_cons_of_pos]
        simpa using hdk.symm
      have hfind2 : rest.find? (fun kv' => kv'.1 = d.id) = Option.none := by
        rw [List.find?_eq_none]
        intro x hx hxp
        refine hrnd.1 ?_
        have hx1 : x.1 = d.id := by simpa using hxp
        rw [← hdk, ← hx1]
        exact List.mem_map_of_mem _ hx
      rw [hfind1, hfind2, if_pos hdk]
    · have hfind1 : (kv :: rest).find? (fun kv' => kv'.1 = d.id) =
          rest.find? (fun kv' => kv'.1 = d.id) := by
        rw [List.find?_cons_of_neg]
        simp only [decide_eq_true_eq]
        intro h
        exact hdk h.symm
      rw [hfind1, if_neg hdk]

theorem updateDetails_eq (details : List BulletDetail)
    (repl : List (String × Replacement))
    (hids : (details.map (fun d => d.id)).Nodup)
    (hrnd : (repl.map (fun kv => kv.1)).Nodup) :
    updateDetails details repl = details.map (fun d =>
      match repl.find? (fun kv => kv.1 = d.id) with
      | some kv => { d with
                       text := kv.2.text
                       stretch := kv.2.stretch
                       metrics := kv.2.metrics }
      | Option.none => d) := by
  unfold updateDetails
  rw [foldInsert_eq details [] (by intro d _; rfl) hids]
  rw [List.nil_append]
  have hmapid : details.map (fun d => (d.id, d)) =
      details.map (fun d => (d.id, id d)) := by
    simp
  rw [hmapid]
  simp only [foldUpdate_eq repl hrnd details id (fun x => rfl), List.map_map]
  refine List.map_congr_left ?_
  intro d _
  simp only [Function.comp, id]

theorem tail_of_ok_replacements (bullet_details : List BulletDetail)
    (sections : List Section) (flat : List String)
    (snippet_map : List (String × ExperienceSnippet)) (stretch_level : Int)
    (guardCall regenCall : Except CallFailure PyFields)
    (report : List Finding) (repl : List (String × Replacement))
    (hok : apply_guardrails bullet_details snippet_map stretch_level guardCall
      regenCall = Except.ok (report, repl))
    (hne : repl.isEmpty = false) :
    guardrails_pipeline_tail bullet_details sections flat snippet_map
        stretch_level guardCall regenCall =
      Except.ok ((compose_sections_from_details (updateDetails bullet_details repl)).1,
        (compose_sections_from_details (updateDetails bullet_details repl)).2,
        updateDetails bullet_details repl, report) := by
  unfold guardrails_pipeline_tail
  rw [hok]
  simp only [hne, Bool.false_eq_true, if_false]

/-- C2 counterexample: with one parsed bullet present, a guardrail audit
call that fails (`TailoringPipelineError` from `_call_openai_json`) is not
caught anywhere on the path through `_apply_guardrails` and
`_generate_resume_package`: the run aborts with the typed failure instead of
completing with the original bullets, contradicting the claim for the
"call fails" case. -/
theorem guardrail_call_failure_aborts_run :
    guardrails_pipeline_tail
        [⟨"b1", "s1", "Led a team of 4 analysts", 2, "Experience", 0, 0, Option.none⟩]
        [⟨"Experience", ["Led a team of 4 analysts"]⟩]
        ["Led a team of 4 analysts"] [] 2
        (Except.error CallFailure.requestFailed) (Except.ok PyFields.nil) =
      Except.error (PipeError.callFailure CallFailure.requestFailed) := by
  rfl

/-- C2 (amended): when the guardrail stage completes without raising —
in particular whenever the audit or regeneration call succeeds but returns
output with no usable findings or replacements, so that no replacement is
produced — the original bullet details, sections and flat bullet list are
returned unchanged and the run completes.  An outright failure of either
call, by contrast, propagates as a typed error and aborts the run. -/
theorem guardrails_fail_soft (bullet_details : List BulletDetail)
    (sections : List Section) (flat : List String)
    (snippet_map : List (String × ExperienceSnippet)) (stretch_level : Int)
    (guardCall regenCall : Except CallFailure PyFields) (report : List Finding)
    (hok : apply_guardrails bullet_details snippet_map stretch_level guardCall
      regenCall = Except.ok (report, [])) :
    guardrails_pipeline_tail bullet_details sections flat snippet_map
        stretch_level guardCall regenCall =
      Except.ok (sections, flat, bullet_details, report) := by
  unfold guardrails_pipeline_tail
  rw [hok]
  rfl

theorem guardrails_fail_soft_witness :
    apply_guardrails
        [⟨"b1", "s1", "Led a team of 4 analysts", 2, "Experience", 0, 0, Option.none⟩]
        [] 2 (Except.ok PyFields.nil) (Except.ok PyFields.nil) =
      Except.ok ([], []) ∧
    guardrails_pipeline_tail
        [⟨"b1", "s1", "Led a team of 4 analysts", 2, "Experience", 0, 0, Option.none⟩]
        [⟨"Experience", ["Led a team of 4 analysts"]⟩]
        ["Led a team of 4 analysts"] [] 2
        (Except.ok PyFields.nil) (Except.ok PyFields.nil) =
      Except.ok ([⟨"Experience", ["Led a team of 4 analysts"]⟩],
        ["Led a team of 4 analysts"],
        [⟨"b1", "s1", "Led a team of 4 analysts", 2, "Experience", 0, 0, Option.none⟩],
        []) :=
  ⟨rfl, guardrails_fail_soft
    [⟨"b1", "s1", "Led a team of 4 analysts", 2, "Experience", 0, 0, Option.none⟩]
    [⟨"Experience", ["Led a team of 4 analysts"]⟩]
    ["Led a team of 4 analysts"] [] 2
    (Except.ok PyFields.nil) (Except.ok PyFields.nil) [] rfl⟩

/-- Audit response used in the guardrail scenarios: one finding flagging
bullet `b1` (snippet `s1`) as `reject`. -/
def guardRespReject : PyFields :=
  .cons "findings"
    (.list (.cons (.dict (.cons "bullet_id" (.str "b1")
      (.cons "snippet_id" (.str "s1")
        (.cons "status" (.str "reject") .nil)))) .nil))
    .nil

/-- A snippet bank holding the source snippet `s1`. -/
def snippetMapW : List (String × ExperienceSnippet) :=
  [("s1", ⟨"s1", "Professional Experience", "Analyst", "Org", "", "", [], [], .nil⟩)]

/-- C6 counterexample: the audit flags bullet `b1` as `reject`, the
regeneration call succeeds and returns a replacement for `b1` whose text is
identical to the original.  The replacement is applied, yet the final flat
bullet list still contains the original text unchanged — so a rejected
bullet can appear unchanged even though regeneration did produce a
replacement for it, contradicting the claim. -/
theorem guardrail_reject_echo_counterexample :
    apply_guardrails
        [⟨"b1", "s1", "Led a team of 4 analysts", 2, "Experience", 0, 0, Option.none⟩]
        snippetMapW 2
        (Except.ok guardRespReject)
        (Except.ok (.cons "replacements"
          (.list (.cons (.dict (.cons "bullet_id" (.str "b1")
            (.cons "text" (.str "Led a team of 4 analysts")
              (.cons "stretch" (.int 2) .nil)))) .nil))
          .nil)) =
      Except.ok ([⟨"s1", "b1", "reject", []⟩],
        [("b1", ⟨"Led a team of 4 analysts", 2, Option.none⟩)]) ∧
    guardrails_pipeline_tail
        [⟨"b1", "s1", "Led a team of 4 analysts", 2, "Experience", 0, 0, Option.none⟩]
        [⟨"Experience", ["Led a team of 4 analysts"]⟩]
        ["Led a team of 4 analysts"] snippetMapW 2
        (Except.ok guardRespReject)
        (Except.ok (.cons "replacements"
          (.list (.cons (.dict (.cons "bullet_id" (.str "b1")
            (.cons "text" (.str "Led a team of 4 analysts")
              (.cons "stretch" (.int 2) .nil)))) .nil))
          .nil)) =
      Except.ok ([⟨"Experience", ["Led a team of 4 analysts"]⟩],
        ["Led a team of 4 analysts"],
        [⟨"b1", "s1", "Led a team of 4 analysts", 2, "Experience", 0, 0, Option.none⟩],
        [⟨"s1", "b1", "reject", []⟩]) :=
  ⟨rfl, rfl⟩

/-- C6 (amended): for every bullet whose guardrail audit finding is
`reject`, whenever the regeneration step produced a replacement for its id,
the bullet's detail text in the final list is overwritten with the
replacement text (which may coincide with the original if the collaborator
echoes it); when no replacement was produced for its id, the original text
is kept — so the original text survives exactly when regeneration failed to
produce a replacement for that bullet or returned it verbatim. -/
theorem reject_bullet_text_overwritten (bullet_details : List BulletDetail)
    (sections : List Section) (flat : List String)
    (snippet_map : List (String × ExperienceSnippet)) (stretch_level : Int)
    (guardCall regenCall : Except CallFailure PyFields)
    (report : List Finding) (repl : List (String × Replacement))
    (finding : Finding) (d : BulletDetail)
    (hids : (bullet_details.map (fun e => e.id)).Nodup)
    (hrnd : (repl.map (fun kv => kv.1)).Nodup)
    (hok : apply_guardrails bullet_details snippet_map stretch_level guardCall
      regenCall = Except.ok (report, repl))
    (_hfinding : finding ∈ report) (_hstatus : finding.status = "reject")
    (_hfid : finding.bullet_id = d.id) (hd : d ∈ bullet_details) :
    (∀ kv : String × Replacement, repl.find? (fun kv' => kv'.1 = d.id) = some kv →
      guardrails_pipeline_tail bullet_details sections flat snippet_map
          stretch_level guardCall regenCall =
        Except.ok ((compose_sections_from_details (updateDetails bullet_details repl)).1,
          (compose_sections_from_details (updateDetails bullet_details repl)).2,
          updateDetails bullet_details repl, report) ∧
      ((updateDetails bullet_details repl).filter (fun e => e.id = d.id)).map
        (fun e => e.text) = [kv.2.text]) ∧
    (repl.find? (fun kv' => kv'.1 = d.id) = Option.none →
      ((updateDetails bullet_details repl).filter (fun e => e.id = d.id)).map
        (fun e => e.text) = [d.text]) := by
  classical
  have hU := updateDetails_eq bullet_details repl hids hrnd
  set F : BulletDetail → BulletDetail := fun x =>
    match repl.find? (fun kv => kv.1 = x.id) with
    | some kv => { x with
                     text := kv.2.text
                     stretch := kv.2.stretch
                     metrics := kv.2.metrics }
    | Option.none => x with hF
  have hpres : ∀ x, (F x).id = x.id := by
    intro x
    simp only [hF]
    cases repl.find? (fun kv => kv.1 = x.id) <;> rfl
  have hfilter : (updateDetails bullet_details repl).filter
      (fun e => e.id = d.id) = [F d] := by
    rw [hU]
    refine unique_key_filter (fun e => e.id) (bullet_details.map F) (F d) d.id ?_ ?_ ?_
    · rw [List.map_map]
      have : (bullet_details.map (fun x => (F x).id)) =
          bullet_details.map (fun x => x.id) :=
        List.map_congr_left (fun x _ => hpres x)
      simpa [Function.comp] using this ▸ hids
    · exact List.mem_map_of_mem F hd
    · exact hpres d
  constructor
  · intro kv hkv
    have hne : repl.isEmpty = false := by
      cases repl with
      | nil => simp at hkv
      | cons a l => rfl
    refine ⟨tail_of_ok_replacements bullet_details sections flat snippet_map
      stretch_level guardCall regenCall report repl hok hne, ?_⟩
    rw [hfilter]
    have hFd : F d = { d with
                         text := kv.2.text
                         stretch := kv.2.stretch
                         metrics := kv.2.metrics } := by
      simp only [hF, hkv]
    rw [hFd]
    rfl
  · intro hnone
    rw [hfilter]
    have hFd : F d = d := by
      simp only [hF, hnone]
    rw [hFd]
    rfl

theorem reject_bullet_text_overwritten_witness :
    (([⟨"b1", "s1", "Led a team of 4 analysts", 2, "Experience", 0, 0,
        Option.none⟩] : List BulletDetail).map (fun e => e.id)).Nodup ∧
    apply_guardrails
        [⟨"b1", "s1", "Led a team of 4 analysts", 2, "Experience", 0, 0, Option.none⟩]
        snippetMapW 2
        (Except.ok guardRespReject)
        (Except.ok (.cons "replacements"
          (.list (.cons (.dict (.cons "bullet_id" (.str "b1")
            (.cons "text" (.str "Coordinated 4 analysts on delivery")
              (.cons "stretch" (.int 2) .nil)))) .nil))
          .nil)) =
      Except.ok ([⟨"s1", "b1", "reject", []⟩],
        [("b1", ⟨"Coordinated 4 analysts on delivery", 2, Option.none⟩)]) ∧
    ((updateDetails
        [⟨"b1", "s1", "Led a team of 4 analysts", 2, "Experience", 0, 0, Option.none⟩]
        [("b1", ⟨"Coordinated 4 analysts on delivery", 2, Option.none⟩)]).filter
      (fun e => e.id = "b1")).map (fun e => e.text) =
      ["Coordinated 4 analysts on delivery"] :=
  ⟨by decide, rfl,
    ((reject_bullet_text_overwritten
      [⟨"b1", "s1", "Led a team of 4 analysts", 2, "Experience", 0, 0, Option.none⟩]
      [⟨"Experience", ["Led a team of 4 analysts"]⟩]
      ["Led a team of 4 analysts"] snippetMapW 2
      (Except.ok guardRespReject)
      (Except.ok (.cons "replacements"
        (.list (.cons (.dict (.cons "bullet_id" (.str "b1")
          (.cons "text" (.str "Coordinated 4 analysts on delivery")
            (.cons "stretch" (.int 2) .nil)))) .nil))
        .nil))
      [⟨"s1", "b1", "reject", []⟩]
      [("b1", ⟨"Coordinated 4 analysts on delivery", 2, Option.none⟩)]
      ⟨"s1", "b1", "reject", []⟩
      ⟨"b1", "s1", "Led a team of 4 analysts", 2, "Experience", 0, 0, Option.none⟩
      (by decide) (by decide) rfl (by decide) rfl rfl (by decide)).1
      ("b1", ⟨"Coordinated 4 analysts on delivery", 2, Option.none⟩) rfl).2⟩

/-! ## Parameter normalization (`AgentKitTailoringService.normalize_parameters`) -/

/-- `dict.get(k)` on a parameter dictionary. -/
def dictGetP (d : List (String × PyVal)) (k : String) : Option PyVal :=
  (d.find? (fun kv => kv.1 = k)).map (fun kv => kv.2)

/-- `merged[k] = v`. -/
def dictSetP (d : List (String × PyVal)) (k : String) (v : PyVal) :
    List (String × PyVal) :=
  pyDictInsert d k v

/-- `{**a, **b}`: `b`'s bindings override `a`'s in place; new keys append in
`b`'s order. -/
def pyMerge (a b : List (String × PyVal)) : List (String × PyVal) :=
  b.foldl (fun acc kv => pyDictInsert acc kv.1 kv.2) a

/-- The default section list (services.py:176-180, also the
`section_layout` default of services.py:188-192). -/
def defaultSections : List String :=
  ["Professional Experience", "Leadership", "Projects"]

/-- Encode a normalized string list as the Python list value stored back
into the dictionary. -/
def strListVal (xs : List String) : PyVal :=
  .list (PyList.ofList (xs.map .str))

/-- `AgentKitTailoringService.DEFAULT_PARAMETERS` (services.py:175-194), in
source order. -/
def DEFAULT_PARAMETERS : List (String × PyVal) :=
  [("sections", strListVal defaultSections),
   ("bullets_per_section", .int 3),
   ("tone", .str "confident and metric-driven"),
   ("include_summary", .bool true),
   ("include_cover_letter", .bool false),
   ("temperature", .float 0.35),
   ("max_output_tokens", .int 3500),
   ("stretch_level", .int 2),
   ("section_layout", strListVal defaultSections),
   ("cover_letter_inserts", .list .nil)]

/-- The ten keys of `DEFAULT_PARAMETERS`, in order. -/
def defKeysList : List String :=
  ["sections", "bullets_per_section", "tone", "include_summary",
   "include_cover_letter", "temperature", "max_output_tokens",
   "stretch_level", "section_layout", "cover_letter_inserts"]

/-- Splitting of a comma/newline-delimited string (the regex split of
services.py:1234 followed by the strip-and-filter comprehension; splitting
on each delimiter instead of delimiter runs yields extra empty pieces that
the filter removes either way). -/
def splitSections (s : String) : List String :=
  ((s.split (fun c => c = '\n' || c = ',')).map pyStrip).filter (fun x => ¬ (x = ""))

/-- `[str(x).strip() for x in xs if str(x).strip()]`. -/
def normStrListP (vs : List PyVal) : List String :=
  (vs.map (fun v => pyStrip (pyStr v))).filter (fun x => ¬ (x = ""))

/-- The shared list-field normalization (services.py:1232-1239 for
`sections`, 1273-1280 for `section_layout`): a string is split, an iterable
(list, or dict iterated over its keys) is coerced elementwise, anything else
falls back to the default. -/
def normListField (v : Option PyVal) (dflt : List String) : List String :=
  match v with
  | some (.str s) => splitSections s
  | some (.list xs) => normStrListP xs.toList
  | some (.dict f) => normStrListP (f.toList.map (fun kv => PyVal.str kv.1))
  | _ => dflt

/-- `int` read of a value the normalizer has already stored as an int (the
token-clamping code of services.py:1307-1333 reads `merged[...]` back and
compares it as a Python int; by that point the stored value is always an
`int`). -/
def asInt : PyVal → Int
  | .int n => n
  | _ => 0

/-- `len()` of a value the normalizer has already stored as a list
(services.py:1310 reads `merged.get("sections", [])` back; by that point
the stored value is always a list). -/
def pyLenList : PyVal → Int
  | .list xs => (xs.toList.length : Int)
  | _ => 0

/-- Shared list-field sanitization with empty-result fallback
(services.py:1232-1241 for `sections`, 1273-1281 for `section_layout`;
both use the same default list). -/
def npListValue (v : Option PyVal) : List String :=
  let s0 := normListField v defaultSections
  if s0.isEmpty then defaultSections else s0

/-- `merged["sections"] = sections or list(DEFAULT_PARAMETERS["sections"])`
(services.py:1232-1241). -/
def npStepSections (merged : List (String × PyVal)) : List (String × PyVal) :=
  dictSetP merged "sections" (strListVal (npListValue (dictGetP merged "sections")))

/-- The sanitized `bullets_per_section` (services.py:1243-1246): `max(1, int(...))`
with the default `3` restored on `TypeError`/`ValueError`. -/
def npBpsValue (v : Option PyVal) : Int :=
  match pyInt (v.getD (.int 3)) with
  | some n => max 1 n
  | Option.none => 3

/-- `merged["bullets_per_section"] = ...` (services.py:1243-1246). -/
def npStepBps (merged : List (String × PyVal)) : List (String × PyVal) :=
  dictSetP merged "bullets_per_section"
    (.int (npBpsValue (dictGetP merged "bullets_per_section")))

/-- The sanitized `temperature` (services.py:1248-1251). -/
def npTempValue (v : Option PyVal) : ℚ :=
  (pyFloat (v.getD (.float 0.35))).getD 0.35

/-- `merged["temperature"] = ...` (services.py:1248-1251). -/
def npStepTemp (merged : List (String × PyVal)) : List (String × PyVal) :=
  dictSetP merged "temperature" (.float (npTempValue (dictGetP merged "temperature")))

/-- The sanitized raw `max_output_tokens` (services.py:1253-1258). -/
def npMotValue (v : Option PyVal) : Int :=
  (pyInt (v.getD (.int 3500))).getD 3500

/-- `merged["max_output_tokens"] = int(...)` (services.py:1253-1258). -/
def npStepMot (merged : List (String × PyVal)) : List (String × PyVal) :=
  dictSetP merged "max_output_tokens"
    (.int (npMotValue (dictGetP merged "max_output_tokens")))

/-- The sanitized `tone` (services.py:1260-1263). -/
def npToneValue (v : Option PyVal) : String :=
  let t0 := pyStrip (pyStr (v.getD (.str "confident and metric-driven")))
  if t0 = "" then "confident and metric-driven" else t0

/-- `merged["tone"] = str(...).strip() or default` (services.py:1260-1263). -/
def npStepTone (merged : List (String × PyVal)) : List (String × PyVal) :=
  dictSetP merged "tone" (.str (npToneValue (dictGetP merged "tone")))

/-- `merged["include_summary"] = bool(...)` (services.py:1264). -/
def npStepSummary (merged : List (String × PyVal)) : List (String × PyVal) :=
  dictSetP merged "include_summary"
    (.bool (pyTruthy ((dictGetP merged "include_summary").getD (.bool true))))

/-- `merged["include_cover_letter"] = bool(...)` (services.py:1265). -/
def npStepCover (merged : List (String × PyVal)) : List (String × PyVal) :=
  dictSetP merged "include_cover_letter"
    (.bool (pyTruthy ((dictGetP merged "include_cover_letter").getD (.bool false))))

/-- The sanitized `stretch_level` (services.py:1267-1271). -/
def npStretchValue (v : Option PyVal) : Int :=
  max 0 (min 3 ((pyInt (v.getD (.int 2))).getD 2))

/-- `merged["stretch_level"] = max(0, min(3, stretch_raw))` (services.py:1267-1271). -/
def npStepStretch (merged : List (String × PyVal)) : List (String × PyVal) :=
  dictSetP merged "stretch_level"
    (.int (npStretchValue (dictGetP merged "stretch_level")))

/-- `merged["section_layout"] = layout or list(...)` (services.py:1273-1281). -/
def npStepLayout (merged : List (String × PyVal)) : List (String × PyVal) :=
  dictSetP merged "section_layout"
    (strListVal (npListValue (dictGetP merged "section_layout")))

/-- The `sections`-over-`section_layout` precedence (services.py:1283-1286):
the condition reads the ORIGINAL `parameters`, the value the merged dict. -/
def npStepOverride (parameters merged : List (String × PyVal)) :
    List (String × PyVal) :=
  if (parameters.find? (fun kv => kv.1 = "sections")).isSome &&
      pyTruthy ((dictGetP merged "sections").getD .none) then
    dictSetP merged "section_layout" ((dictGetP merged "sections").getD .none)
  else merged

/-- The sanitized `cover_letter_inserts` (services.py:1288-1295): a falsy
stored value is first replaced by `[]`. -/
def npInsertsValue (v : Option PyVal) : List String :=
  let v0 := v.getD .none
  let v1 := if pyTruthy v0 then v0 else .list .nil
  match v1 with
  | .str s => splitSections s
  | .list xs => normStrListP xs.toList
  | .dict f => normStrListP (f.toList.map (fun kv => PyVal.str kv.1))
  | _ => []

/-- `merged["cover_letter_inserts"] = inserts` (services.py:1288-1295). -/
def npStepInserts (merged : List (String × PyVal)) : List (String × PyVal) :=
  dictSetP merged "cover_letter_inserts"
    (strListVal (npInsertsValue (dictGetP merged "cover_letter_inserts")))

/-- `min_tokens` (services.py:1299-1315), reading the already-sanitized
values back from the dict exactly as the source does. -/
def npMinTokens (merged : List (String × PyVal)) : Int :=
  let bps := asInt ((dictGetP merged "bullets_per_section").getD (.int 3))
  let min_tokens1 : Int := if 5 ≤ bps then max 2500 3000 else 2500
  let num_sections : Int :=
    let ls := pyLenList ((dictGetP merged "sections").getD (.list .nil))
    if ls = 0 then pyLenList ((dictGetP merged "section_layout").getD (.list .nil))
    else ls
  let min_tokens2 : Int :=
    if 3 ≤ num_sections ∧ 4 ≤ bps then max min_tokens1 3500 else min_tokens1
  max min_tokens2 1000

/-- Raise `max_output_tokens` to the safe minimum (services.py:1317-1325). -/
def npStepClampMin (merged : List (String × PyVal)) : List (String × PyVal) :=
  if asInt ((dictGetP merged "max_output_tokens").getD (.int 3500)) <
      npMinTokens merged then
    dictSetP merged "max_output_tokens" (.int (npMinTokens merged))
  else merged

/-- Cap `max_output_tokens` at the absolute maximum (services.py:1327-1333). -/
def npStepClampMax (merged : List (String × PyVal)) : List (String × PyVal) :=
  if 6500 < asInt ((dictGetP merged "max_output_tokens").getD (.int 3500)) then
    dictSetP merged "max_output_tokens" (.int 6500)
  else merged

/-- `AgentKitTailoringService.normalize_parameters` (services.py:1225-1335):
defaults merged first, then each statement block of the source applied to
the dictionary in source order. -/
def normalize_parameters (parameters : List (String × PyVal)) :
    List (String × PyVal) :=
  npStepClampMax (npStepClampMin (npStepInserts (npStepOverride parameters
    (npStepLayout (npStepStretch (npStepCover (npStepSummary (npStepTone
      (npStepMot (npStepTemp (npStepBps (npStepSections
        (pyMerge DEFAULT_PARAMETERS parameters)))))))))))))

set_option maxHeartbeats 8000000 in
/-- C3 counterexample: on the input with the single binding
`section_layout := ["Custom"]` (no `sections` key), the first normalization
keeps the custom layout, but a second normalization sees the merged-in
`sections` key and overwrites `section_layout` with the default sections
list — so `normalize_parameters` is not idempotent. -/
theorem normalize_parameters_not_idempotent :
    normalize_parameters (normalize_parameters
        [("section_layout", .list (PyList.ofList [.str "Custom"]))]) ≠
      normalize_parameters
        [("section_layout", .list (PyList.ofList [.str "Custom"]))] ∧
    dictGetP (normalize_parameters
        [("section_layout", .list (PyList.ofList [.str "Custom"]))])
        "section_layout" = some (strListVal ["Custom"]) ∧
    dictGetP (normalize_parameters (normalize_parameters
        [("section_layout", .list (PyList.ofList [.str "Custom"]))]))
        "section_layout" = some (strListVal defaultSections) := by
  have h2 : dictGetP (normalize_parameters
      [("section_layout", .list (PyList.ofList [.str "Custom"]))])
      "section_layout" = some (strListVal ["Custom"]) := by decide
  have h3 : dictGetP (normalize_parameters (normalize_parameters
      [("section_layout", .list (PyList.ofList [.str "Custom"]))]))
      "section_layout" = some (strListVal defaultSections) := by decide
  refine ⟨?_, h2, h3⟩
  intro h
  rw [h, h2] at h3
  exact absurd h3 (by decide)

/-! ### Association-list lemmas for the normalizer dictionary -/

theorem find_key_of_mem {α : Type _} (d : List (String × α)) (k : String)
    (h : k ∈ d.map Prod.fst) :
    (d.find? (fun kv => kv.1 = k)).isSome = true := by
  induction d with
  | nil => simp at h
  | cons a t ih =>
    by_cases ha : a.1 = k
    · simp [List.find?, ha]
    · simp only [List.map_cons, List.mem_cons] at h
      rcases h with h | h
      · exact absurd h.symm ha
      · simp only [List.find?, decide_eq_false ha]
        exact ih h

theorem find_key_none {α : Type _} (d : List (String × α)) (k : String)
    (h : ∀ kv ∈ d, ¬ kv.1 = k) :
    d.find? (fun kv => kv.1 = k) = Option.none := by
  induction d with
  | nil => rfl
  | cons a t ih =>
    simp only [List.find?, decide_eq_false (h a (by simp))]
    exact ih (fun kv hkv => h kv (by simp [hkv]))

theorem find_append_left {α : Type _} (p : α → Bool) (l₁ l₂ : List α)
    (h : (l₁.find? p).isSome = true) : (l₁ ++ l₂).find? p = l₁.find? p := by
  induction l₁ with
  | nil => simp at h
  | cons a t ih =>
    simp only [List.cons_append, List.find?]
    cases hpa : p a with
    | true => rfl
    | false =>
      simp only [List.find?, hpa] at h
      exact ih h

theorem find_append_none {α : Type _} (p : α → Bool) (l₁ l₂ : List α)
    (h : l₁.find? p = Option.none) : (l₁ ++ l₂).find? p = l₂.find? p := by
  induction l₁ with
  | nil => simp
  | cons a t ih =>
    simp only [List.cons_append, List.find?]
    cases hpa : p a with
    | true => simp [List.find?, hpa] at h
    | false =>
      simp only [List.find?, hpa] at h
      exact ih h

theorem map_keep_of_ne {α : Type _} (l : List (String × α)) (k : String) (v : α)
    (hex : ∀ kv ∈ l, ¬ kv.1 = k) :
    l.map (fun kv => if kv.1 = k then (k, v) else kv) = l := by
  induction l with
  | nil => rfl
  | cons a t ih =>
    rw [List.map_cons, if_neg (hex a (by simp)),
      ih (fun kv h => hex kv (by simp [h]))]

theorem pyDictInsert_append_front {α : Type _} (front extras : List (String × α))
    (k : String) (v : α)
    (hk : (front.find? (fun kv => kv.1 = k)).isSome = true)
    (hex : ∀ kv ∈ extras, ¬ kv.1 = k) :
    pyDictInsert (front ++ extras) k v
      = front.map (fun kv => if kv.1 = k then (k, v) else kv) ++ extras := by
  unfold pyDictInsert
  rw [find_append_left _ _ _ hk, if_pos hk, List.map_append,
    map_keep_of_ne extras k v hex]

theorem pyDictInsert_append_right {α : Type _} (front extras : List (String × α))
    (k : String) (v : α) (h : ∀ kv ∈ front, ¬ kv.1 = k) :
    pyDictInsert (front ++ extras) k v = front ++ pyDictInsert extras k v := by
  unfold pyDictInsert
  rw [find_append_none _ _ _ (find_key_none front k h)]
  by_cases hs : (extras.find? (fun kv => kv.1 = k)).isSome = true
  · rw [if_pos hs, if_pos hs, List.map_append, map_keep_of_ne front k v h]
  · rw [if_neg hs, if_neg hs, List.append_assoc]

theorem pyDictInsert_not_found {α : Type _} (d : List (String × α)) (k : String)
    (v : α) (h : ∀ kv ∈ d, ¬ kv.1 = k) :
    pyDictInsert d k v = d ++ [(k, v)] := by
  unfold pyDictInsert
  rw [find_key_none d k h]
  rfl

theorem pyDictInsert_keys_found {α : Type _} (d : List (String × α)) (k : String)
    (v : α) (h : (d.find? (fun kv => kv.1 = k)).isSome = true) :
    (pyDictInsert d k v).map Prod.fst = d.map Prod.fst := by
  unfold pyDictInsert
  rw [if_pos h, List.map_map]
  apply List.map_congr_left
  intro a _
  by_cases ha : a.1 = k
  · simp [ha]
  · simp [ha]

theorem foldl_insert_fresh :
    ∀ (e acc : List (String × PyVal)), (e.map Prod.fst).Nodup →
      (∀ key ∈ e.map Prod.fst, ¬ key ∈ acc.map Prod.fst) →
      List.foldl (fun acc kv => pyDictInsert acc kv.1 kv.2) acc e = acc ++ e := by
  intro e
  induction e with
  | nil => intro acc _ _; simp
  | cons a t ih =>
    intro acc hnd hdisj
    have hna : ∀ kv ∈ acc, ¬ kv.1 = a.1 := fun kv hkv h =>
      hdisj a.1 (by simp) (by rw [← h]; exact List.mem_map_of_mem _ hkv)
    rw [List.foldl_cons]
    show List.foldl _ (pyDictInsert acc a.1 a.2) t = _
    rw [pyDictInsert_not_found acc a.1 a.2 hna]
    have hnd2 : (t.map Prod.fst).Nodup := by
      simp only [List.map_cons, List.nodup_cons] at hnd
      exact hnd.2
    have hhd : ¬ a.1 ∈ t.map Prod.fst := by
      simp only [List.map_cons, List.nodup_cons] at hnd
      exact hnd.1
    have hdisj2 : ∀ key ∈ t.map Prod.fst, ¬ key ∈ (acc ++ [(a.1, a.2)]).map Prod.fst := by
      intro key hkey hmem
      rw [List.map_append] at hmem
      rcases List.mem_append.mp hmem with hmem | hmem
      · exact hdisj key (by simp [hkey]) hmem
      · simp at hmem
        rw [hmem] at hkey
        exact hhd hkey
    rw [ih (acc ++ [(a.1, a.2)]) hnd2 hdisj2, List.append_assoc]
    rfl

/-! ### The shape of the merged dictionary: the ten default keys in order,
followed by the caller's extra bindings -/

/-- A dictionary whose first ten bindings carry the `DEFAULT_PARAMETERS`
keys in declaration order. -/
def npFront (v₁ v₂ v₃ v₄ v₅ v₆ v₇ v₈ v₉ v₁₀ : PyVal) : List (String × PyVal) :=
  [("sections", v₁), ("bullets_per_section", v₂), ("tone", v₃),
   ("include_summary", v₄), ("include_cover_letter", v₅), ("temperature", v₆),
   ("max_output_tokens", v₇), ("stretch_level", v₈), ("section_layout", v₉),
   ("cover_letter_inserts", v₁₀)]

theorem pyMerge_shape_aux (p : List (String × PyVal)) :
    ∀ front extras : List (String × PyVal), front.map Prod.fst = defKeysList →
      (∀ key ∈ extras.map Prod.fst, ¬ key ∈ defKeysList) →
      (extras.map Prod.fst).Nodup →
      ∃ front2 extras2, pyMerge (front ++ extras) p = front2 ++ extras2 ∧
        front2.map Prod.fst = defKeysList ∧
        (∀ key ∈ extras2.map Prod.fst, ¬ key ∈ defKeysList) ∧
        (extras2.map Prod.fst).Nodup := by
  induction p with
  | nil => intro front extras h1 h2 h3; exact ⟨front, extras, rfl, h1, h2, h3⟩
  | cons kv t ih =>
    intro front extras h1 h2 h3
    have hstep : pyMerge (front ++ extras) (kv :: t)
        = pyMerge (pyDictInsert (front ++ extras) kv.1 kv.2) t := rfl
    rw [hstep]
    by_cases hk : kv.1 ∈ defKeysList
    · have hkf : kv.1 ∈ front.map Prod.fst := by rw [h1]; exact hk
      have hfound : (front.find? (fun kv2 => kv2.1 = kv.1)).isSome = true :=
        find_key_of_mem _ _ hkf
      have hexne : ∀ kv2 ∈ extras, ¬ kv2.1 = kv.1 := fun kv2 hkv2 heq2 =>
        h2 kv2.1 (List.mem_map_of_mem _ hkv2) (by rw [heq2]; exact hk)
      rw [pyDictInsert_append_front _ _ _ _ hfound hexne]
      have hkeys :
          (front.map (fun kv2 => if kv2.1 = kv.1 then (kv.1, kv.2) else kv2)).map
            Prod.fst = defKeysList := by
        rw [← h1, List.map_map]
        apply List.map_congr_left
        intro a _
        by_cases ha : a.1 = kv.1
        · simp [ha]
        · simp [ha]
      exact ih _ _ hkeys h2 h3
    · have hfne : ∀ kv2 ∈ front, ¬ kv2.1 = kv.1 := fun kv2 hkv2 heq2 =>
        hk (by rw [← heq2]; rw [← h1]; exact List.mem_map_of_mem _ hkv2)
      rw [pyDictInsert_append_right _ _ _ _ hfne]
      by_cases he : (extras.find? (fun kv2 => kv2.1 = kv.1)).isSome = true
      · have hkeys := pyDictInsert_keys_found extras kv.1 kv.2 he
        refine ih _ _ h1 ?_ ?_
        · rw [hkeys]; exact h2
        · rw [hkeys]; exact h3
      · have hnm : ¬ kv.1 ∈ extras.map Prod.fst := fun hmem =>
          he (find_key_of_mem _ _ hmem)
        have hnone : ∀ kv2 ∈ extras, ¬ kv2.1 = kv.1 := fun kv2 hkv2 heq2 =>
          hnm (by rw [← heq2]; exact List.mem_map_of_mem _ hkv2)
        rw [pyDictInsert_not_found _ _ _ hnone]
        refine ih _ _ h1 ?_ ?_
        · intro key hkey
          rw [List.map_append] at hkey
          rcases List.mem_append.mp hkey with hkey | hkey
          · exact h2 key hkey
          · simp at hkey
            rw [hkey]
            exact hk
        · rw [List.map_append]
          refine List.nodup_append.mpr ⟨h3, by simp, ?_⟩
          intro a ha hb
          simp at hb
          rw [hb] at ha
          exact hnm ha

theorem front_destruct (front : List (String × PyVal))
    (h : front.map Prod.fst = defKeysList) :
    ∃ v₁ v₂ v₃ v₄ v₅ v₆ v₇ v₈ v₉ v₁₀,
      front = npFront v₁ v₂ v₃ v₄ v₅ v₆ v₇ v₈ v₉ v₁₀ := by
  rcases front with _ | ⟨⟨k₁, v₁⟩, front⟩
  · simp [defKeysList] at h
  rcases front with _ | ⟨⟨k₂, v₂⟩, front⟩
  · simp [defKeysList] at h
  rcases front with _ | ⟨⟨k₃, v₃⟩, front⟩
  · simp [defKeysList] at h
  rcases front with _ | ⟨⟨k₄, v₄⟩, front⟩
  · simp [defKeysList] at h
  rcases front with _ | ⟨⟨k₅, v₅⟩, front⟩
  · simp [defKeysList] at h
  rcases front with _ | ⟨⟨k₆, v₆⟩, front⟩
  · simp [defKeysList] at h
  rcases front with _ | ⟨⟨k₇, v₇⟩, front⟩
  · simp [defKeysList] at h
  rcases front with _ | ⟨⟨k₈, v₈⟩, front⟩
  · simp [defKeysList] at h
  rcases front with _ | ⟨⟨k₉, v₉⟩, front⟩
  · simp [defKeysList] at h
  rcases front with _ | ⟨⟨k₁₀, v₁₀⟩, front⟩
  · simp [defKeysList] at h
  rcases front with _ | ⟨⟨k₁₁, v₁₁⟩, front⟩
  · simp only [List.map_cons, List.map_nil, defKeysList, List.cons.injEq,
      and_true] at h
    obtain ⟨h₁, h₂, h₃, h₄, h₅, h₆, h₇, h₈, h₉, h₁₀⟩ := h
    subst h₁; subst h₂; subst h₃; subst h₄; subst h₅
    subst h₆; subst h₇; subst h₈; subst h₉; subst h₁₀
    exact ⟨v₁, v₂, v₃, v₄, v₅, v₆, v₇, v₈, v₉, v₁₀, rfl⟩
  · simp [defKeysList] at h

theorem pyMerge_default_shape (p : List (String × PyVal)) :
    ∃ v₁ v₂ v₃ v₄ v₅ v₆ v₇ v₈ v₉ v₁₀ extras,
      pyMerge DEFAULT_PARAMETERS p
          = npFront v₁ v₂ v₃ v₄ v₅ v₆ v₇ v₈ v₉ v₁₀ ++ extras ∧
        (∀ key ∈ extras.map Prod.fst, ¬ key ∈ defKeysList) ∧
        (extras.map Prod.fst).Nodup := by
  obtain ⟨front2, extras2, heq, hkeys, hex, hnd⟩ :=
    pyMerge_shape_aux p DEFAULT_PARAMETERS [] (by rfl) (by simp) (by simp)
  rw [List.append_nil] at heq
  obtain ⟨v₁, v₂, v₃, v₄, v₅, v₆, v₇, v₈, v₉, v₁₀, hfront⟩ :=
    front_destruct front2 hkeys
  exact ⟨v₁, v₂, v₃, v₄, v₅, v₆, v₇, v₈, v₉, v₁₀, extras2,
    by rw [heq, hfront], hex, hnd⟩

/-! ### `str.strip()` is idempotent, so the sanitized string fields are
fixed points of a second sanitization -/

theorem dropWhile_head_false {p : Char → Bool} :
    ∀ (l : List Char) (x : Char) (xs : List Char),
      l.dropWhile p = x :: xs → p x = false := by
  intro l
  induction l with
  | nil => intro x xs h; simp [List.dropWhile] at h
  | cons a t ih =>
    intro x xs h
    by_cases hpa : p a = true
    · rw [List.dropWhile_cons, if_pos hpa] at h
      exact ih x xs h
    · rw [List.dropWhile_cons, if_neg hpa] at h
      cases h
      exact Bool.not_eq_true _ |>.mp hpa

theorem dropWhile_exists_append {p : Char → Bool} :
    ∀ l : List Char, ∃ t, t ++ l.dropWhile p = l := by
  intro l
  induction l with
  | nil => exact ⟨[], rfl⟩
  | cons a t ih =>
    by_cases hpa : p a = true
    · obtain ⟨u, hu⟩ := ih
      exact ⟨a :: u, by rw [List.dropWhile_cons, if_pos hpa]; simp [hu]⟩
    · exact ⟨[], by rw [List.dropWhile_cons, if_neg hpa]; rfl⟩

theorem pyStripList_idem (l : List Char) :
    pyStripList (pyStripList l) = pyStripList l := by
  have hA : pyStripList l
      = ((l.dropWhile isPySpace).reverse.dropWhile isPySpace).reverse := rfl
  set A := l.dropWhile isPySpace with hAdef
  set B := A.reverse.dropWhile isPySpace with hBdef
  have h1 : B.reverse.dropWhile isPySpace = B.reverse := by
    cases hBr : B.reverse with
    | nil => simp
    | cons x xs =>
      obtain ⟨t, ht⟩ := dropWhile_exists_append (p := isPySpace) A.reverse
      have hA2 : A = B.reverse ++ t.reverse := by
        have h := congrArg List.reverse ht
        rw [List.reverse_append, List.reverse_reverse] at h
        rw [← hBdef] at h
        exact h.symm
      have hpx : isPySpace x = false := by
        apply dropWhile_head_false l x (xs ++ t.reverse)
        show A = x :: (xs ++ t.reverse)
        rw [hA2, hBr]
        rfl
      rw [List.dropWhile_cons, if_neg (by simp [hpx])]
  have h2 : B.dropWhile isPySpace = B := by
    cases hBc : B with
    | nil => simp
    | cons y ys =>
      have hpy : isPySpace y = false := by
        apply dropWhile_head_false A.reverse y ys
        rw [← hBdef, hBc]
      rw [List.dropWhile_cons, if_neg (by simp [hpy])]
  show ((B.reverse.dropWhile isPySpace).reverse.dropWhile isPySpace).reverse
      = B.reverse
  rw [h1, List.reverse_reverse, h2]

theorem pyStrip_idem (s : String) : pyStrip (pyStrip s) = pyStrip s := by
  show (⟨pyStripList (pyStripList s.data)⟩ : String) = ⟨pyStripList s.data⟩
  rw [pyStripList_idem]

theorem splitSections_clean (s : String) :
    ∀ x ∈ splitSections s, pyStrip x = x ∧ ¬ x = "" := by
  intro x hx
  unfold splitSections at hx
  rcases List.mem_filter.mp hx with ⟨hmem, hpred⟩
  rcases List.mem_map.mp hmem with ⟨y, _, hxy⟩
  exact ⟨by rw [← hxy]; exact pyStrip_idem y, by simpa using hpred⟩

theorem normStrListP_clean (vs : List PyVal) :
    ∀ x ∈ normStrListP vs, pyStrip x = x ∧ ¬ x = "" := by
  intro x hx
  unfold normStrListP at hx
  rcases List.mem_filter.mp hx with ⟨hmem, hpred⟩
  rcases List.mem_map.mp hmem with ⟨y, _, hxy⟩
  exact ⟨by rw [← hxy]; exact pyStrip_idem (pyStr y), by simpa using hpred⟩

theorem defaultSections_clean :
    ∀ x ∈ defaultSections, pyStrip x = x ∧ ¬ x = "" := by decide

theorem normListField_clean (v : Option PyVal) :
    ∀ x ∈ normListField v defaultSections, pyStrip x = x ∧ ¬ x = "" := by
  unfold normListField
  match v with
  | Option.none => exact defaultSections_clean
  | some (.str s) => exact splitSections_clean s
  | some (.list xs) => exact normStrListP_clean _
  | some (.dict f) => exact normStrListP_clean _
  | some .none => exact defaultSections_clean
  | some (.bool b) => exact defaultSections_clean
  | some (.int n) => exact defaultSections_clean
  | some (.float q) => exact defaultSections_clean

theorem npListValue_clean (v : Option PyVal) :
    ∀ x ∈ npListValue v, pyStrip x = x ∧ ¬ x = "" := by
  unfold npListValue
  dsimp only
  split
  · exact defaultSections_clean
  · exact normListField_clean v

theorem npListValue_ne_nil (v : Option PyVal) : npListValue v ≠ [] := by
  unfold npListValue
  dsimp only
  split
  · decide
  · rename_i h
    intro hnil
    rw [hnil] at h
    exact h rfl

theorem normStrListP_fixed (S : List String)
    (hS : ∀ x ∈ S, pyStrip x = x ∧ ¬ x = "") :
    normStrListP (S.map .str) = S := by
  unfold normStrListP
  rw [List.map_map]
  have h1 : S.map ((fun v => pyStrip (pyStr v)) ∘ PyVal.str) = S := by
    have h2 : ∀ x ∈ S, ((fun v => pyStrip (pyStr v)) ∘ PyVal.str) x = id x :=
      fun x hx => by simp [Function.comp, pyStr, (hS x hx).1]
    rw [List.map_congr_left h2, List.map_id]
  rw [h1]
  exact List.filter_eq_self.mpr (fun x hx => by simp [(hS x hx).2])

theorem npListValue_id (S : List String) (h0 : S ≠ [])
    (h : ∀ x ∈ S, pyStrip x = x ∧ ¬ x = "") :
    npListValue (some (strListVal S)) = S := by
  have hne : S.isEmpty = false := by
    cases S with
    | nil => exact absurd rfl h0
    | cons a t => rfl
  show (if (normStrListP (PyList.ofList (S.map PyVal.str)).toList).isEmpty
      then defaultSections
      else normStrListP (PyList.ofList (S.map PyVal.str)).toList) = S
  rw [PyList.toList_ofList, normStrListP_fixed S h, hne]
  rfl

theorem pyTruthy_strListVal (S : List String) (h : S ≠ []) :
    pyTruthy (strListVal S) = true := by
  cases S with
  | nil => exact absurd rfl h
  | cons a t => rfl

theorem npInsertsValue_id (I : List String)
    (h : ∀ x ∈ I, pyStrip x = x ∧ ¬ x = "") :
    npInsertsValue (some (strListVal I)) = I := by
  cases I with
  | nil => rfl
  | cons a t =>
    show (match (if pyTruthy (strListVal (a :: t)) = true
        then strListVal (a :: t) else PyVal.list .nil : PyVal) with
      | .str s => splitSections s
      | .list xs => normStrListP xs.toList
      | .dict f => normStrListP (f.toList.map (fun kv => PyVal.str kv.1))
      | _ => []) = a :: t
    rw [pyTruthy_strListVal (a :: t) (by simp), if_pos rfl]
    show normStrListP (PyList.ofList ((a :: t).map PyVal.str)).toList = a :: t
    rw [PyList.toList_ofList]
    exact normStrListP_fixed (a :: t) h

theorem npInsertsValue_clean (v : Option PyVal) :
    ∀ x ∈ npInsertsValue v, pyStrip x = x ∧ ¬ x = "" := by
  unfold npInsertsValue
  dsimp only
  split
  · intro x hx; exact splitSections_clean _ x hx
  · intro x hx; exact normStrListP_clean _ x hx
  · intro x hx; exact normStrListP_clean _ x hx
  · intro x hx; simp at hx

theorem npBpsValue_ge_one (v : Option PyVal) : 1 ≤ npBpsValue v := by
  unfold npBpsValue
  rcases hp : pyInt (v.getD (.int 3)) with _ | n
  · norm_num
  · exact le_max_left 1 n

theorem npBpsValue_int (B : Int) (h : 1 ≤ B) :
    npBpsValue (some (.int B)) = B := by
  show max 1 B = B
  exact max_eq_right h

theorem npToneValue_clean (v : Option PyVal) :
    pyStrip (npToneValue v) = npToneValue v ∧ ¬ npToneValue v = "" := by
  unfold npToneValue
  dsimp only
  split
  · decide
  · rename_i h
    exact ⟨pyStrip_idem _, h⟩

theorem npToneValue_str (T : String) (h1 : pyStrip T = T) (h2 : ¬ T = "") :
    npToneValue (some (.str T)) = T := by
  show (if pyStrip (pyStr (.str T)) = "" then "confident and metric-driven"
      else pyStrip (pyStr (.str T))) = T
  show (if pyStrip T = "" then "confident and metric-driven"
      else pyStrip T) = T
  rw [h1, if_neg h2]

theorem npStretchValue_bounds (v : Option PyVal) :
    0 ≤ npStretchValue v ∧ npStretchValue v ≤ 3 := by
  unfold npStretchValue
  exact ⟨le_max_left 0 _, max_le (by norm_num) (min_le_left 3 _)⟩

theorem npStretchValue_int (L : Int) (h0 : 0 ≤ L) (h3 : L ≤ 3) :
    npStretchValue (some (.int L)) = L := by
  show max 0 (min 3 L) = L
  rw [min_eq_right h3]
  exact max_eq_right h0

/-! ### One normalization step at a time on a shaped dictionary -/

theorem extras_key_ne (extras : List (String × PyVal))
    (hex : ∀ key ∈ extras.map Prod.fst, ¬ key ∈ defKeysList)
    (k : String) (hk : k ∈ defKeysList) :
    ∀ kv ∈ extras, ¬ kv.1 = k :=
  fun kv hkv h => hex kv.1 (List.mem_map_of_mem _ hkv) (by rw [h]; exact hk)

theorem npStepSections_front (v₁ v₂ v₃ v₄ v₅ v₆ v₇ v₈ v₉ v₁₀ : PyVal)
    (extras : List (String × PyVal))
    (hex : ∀ key ∈ extras.map Prod.fst, ¬ key ∈ defKeysList) :
    npStepSections (npFront v₁ v₂ v₃ v₄ v₅ v₆ v₇ v₈ v₉ v₁₀ ++ extras)
      = npFront (strListVal (npListValue (some v₁))) v₂ v₃ v₄ v₅ v₆ v₇ v₈ v₉ v₁₀
        ++ extras := by
  have hget : dictGetP (npFront v₁ v₂ v₃ v₄ v₅ v₆ v₇ v₈ v₉ v₁₀ ++ extras)
      "sections" = some v₁ := by
    simp [npFront, dictGetP, List.find?]
  unfold npStepSections dictSetP
  rw [hget, pyDictInsert_append_front _ _ _ _ (by simp [npFront, List.find?])
    (extras_key_ne extras hex "sections" (by decide))]
  simp [npFront]

theorem npStepBps_front (v₁ v₂ v₃ v₄ v₅ v₆ v₇ v₈ v₉ v₁₀ : PyVal)
    (extras : List (String × PyVal))
    (hex : ∀ key ∈ extras.map Prod.fst, ¬ key ∈ defKeysList) :
    npStepBps (npFront v₁ v₂ v₃ v₄ v₅ v₆ v₇ v₈ v₉ v₁₀ ++ extras)
      = npFront v₁ (.int (npBpsValue (some v₂))) v₃ v₄ v₅ v₆ v₇ v₈ v₉ v₁₀
        ++ extras := by
  have hget : dictGetP (npFront v₁ v₂ v₃ v₄ v₅ v₆ v₇ v₈ v₉ v₁₀ ++ extras)
      "bullets_per_section" = some v₂ := by
    simp [npFront, dictGetP, List.find?]
  unfold npStepBps dictSetP
  rw [hget, pyDictInsert_append_front _ _ _ _ (by simp [npFront, List.find?])
    (extras_key_ne extras hex "bullets_per_section" (by decide))]
  simp [npFront]

theorem npStepTemp_front (v₁ v₂ v₃ v₄ v₅ v₆ v₇ v₈ v₉ v₁₀ : PyVal)
    (extras : List (String × PyVal))
    (hex : ∀ key ∈ extras.map Prod.fst, ¬ key ∈ defKeysList) :
    npStepTemp (npFront v₁ v₂ v₃ v₄ v₅ v₆ v₇ v₈ v₉ v₁₀ ++ extras)
      = npFront v₁ v₂ v₃ v₄ v₅ (.float (npTempValue (some v₆))) v₇ v₈ v₉ v₁₀
        ++ extras := by
  have hget : dictGetP (npFront v₁ v₂ v₃ v₄ v₅ v₆ v₇ v₈ v₉ v₁₀ ++ extras)
      "temperature" = some v₆ := by
    simp [npFront, dictGetP, List.find?]
  unfold npStepTemp dictSetP
  rw [hget, pyDictInsert_append_front _ _ _ _ (by simp [npFront, List.find?])
    (extras_key_ne extras hex "temperature" (by decide))]
  simp [npFront]

theorem npStepMot_front (v₁ v₂ v₃ v₄ v₅ v₆ v₇ v₈ v₉ v₁₀ : PyVal)
    (extras : List (String × PyVal))
    (hex : ∀ key ∈ extras.map Prod.fst, ¬ key ∈ defKeysList) :
    npStepMot (npFront v₁ v₂ v₃ v₄ v₅ v₆ v₇ v₈ v₉ v₁₀ ++ extras)
      = npFront v₁ v₂ v₃ v₄ v₅ v₆ (.int (npMotValue (some v₇))) v₈ v₉ v₁₀
        ++ extras := by
  have hget : dictGetP (npFront v₁ v₂ v₃ v₄ v₅ v₆ v₇ v₈ v₉ v₁₀ ++ extras)
      "max_output_tokens" = some v₇ := by
    simp [npFront, dictGetP, List.find?]
  unfold npStepMot dictSetP
  rw [hget, pyDictInsert_append_front _ _ _ _ (by simp [npFront, List.find?])
    (extras_key_ne extras hex "max_output_tokens" (by decide))]
  simp [npFront]

theorem npStepTone_front (v₁ v₂ v₃ v₄ v₅ v₆ v₇ v₈ v₉ v₁₀ : PyVal)
    (extras : List (String × PyVal))
    (hex : ∀ key ∈ extras.map Prod.fst, ¬ key ∈ defKeysList) :
    npStepTone (npFront v₁ v₂ v₃ v₄ v₅ v₆ v₇ v₈ v₉ v₁₀ ++ extras)
      = npFront v₁ v₂ (.str (npToneValue (some v₃))) v₄ v₅ v₆ v₇ v₈ v₉ v₁₀
        ++ extras := by
  have hget : dictGetP (npFront v₁ v₂ v₃ v₄ v₅ v₆ v₇ v₈ v₉ v₁₀ ++ extras)
      "tone" = some v₃ := by
    simp [npFront, dictGetP, List.find?]
  unfold npStepTone dictSetP
  rw [hget, pyDictInsert_append_front _ _ _ _ (by simp [npFront, List.find?])
    (extras_key_ne extras hex "tone" (by decide))]
  simp [npFront]

theorem npStepSummary_front (v₁ v₂ v₃ v₄ v₅ v₆ v₇ v₈ v₉ v₁₀ : PyVal)
    (extras : List (String × PyVal))
    (hex : ∀ key ∈ extras.map Prod.fst, ¬ key ∈ defKeysList) :
    npStepSummary (npFront v₁ v₂ v₃ v₄ v₅ v₆ v₇ v₈ v₉ v₁₀ ++ extras)
      = npFront v₁ v₂ v₃ (.bool (pyTruthy v₄)) v₅ v₆ v₇ v₈ v₉ v₁₀
        ++ extras := by
  have hget : dictGetP (npFront v₁ v₂ v₃ v₄ v₅ v₆ v₇ v₈ v₉ v₁₀ ++ extras)
      "include_summary" = some v₄ := by
    simp [npFront, dictGetP, List.find?]
  unfold npStepSummary dictSetP
  rw [hget, pyDictInsert_append_front _ _ _ _ (by simp [npFront, List.find?])
    (extras_key_ne extras hex "include_summary" (by decide))]
  simp [npFront]

theorem npStepCover_front (v₁ v₂ v₃ v₄ v₅ v₆ v₇ v₈ v₉ v₁₀ : PyVal)
    (extras : List (String × PyVal))
    (hex : ∀ key ∈ extras.map Prod.fst, ¬ key ∈ defKeysList) :
    npStepCover (npFront v₁ v₂ v₃ v₄ v₅ v₆ v₇ v₈ v₉ v₁₀ ++ extras)
      = npFront v₁ v₂ v₃ v₄ (.bool (pyTruthy v₅)) v₆ v₇ v₈ v₉ v₁₀
        ++ extras := by
  have hget : dictGetP (npFront v₁ v₂ v₃ v₄ v₅ v₆ v₇ v₈ v₉ v₁₀ ++ extras)
      "include_cover_letter" = some v₅ := by
    simp [npFront, dictGetP, List.find?]
  unfold npStepCover dictSetP
  rw [hget, pyDictInsert_append_front _ _ _ _ (by simp [npFront, List.find?])
    (extras_key_ne extras hex "include_cover_letter" (by decide))]
  simp [npFront]

theorem npStepStretch_front (v₁ v₂ v₃ v₄ v₅ v₆ v₇ v₈ v₉ v₁₀ : PyVal)
    (extras : List (String × PyVal))
    (hex : ∀ key ∈ extras.map Prod.fst, ¬ key ∈ defKeysList) :
    npStepStretch (npFront v₁ v₂ v₃ v₄ v₅ v₆ v₇ v₈ v₉ v₁₀ ++ extras)
      = npFront v₁ v₂ v₃ v₄ v₅ v₆ v₇ (.int (npStretchValue (some v₈))) v₉ v₁₀
        ++ extras := by
  have hget : dictGetP (npFront v₁ v₂ v₃ v₄ v₅ v₆ v₇ v₈ v₉ v₁₀ ++ extras)
      "stretch_level" = some v₈ := by
    simp [npFront, dictGetP, List.find?]
  unfold npStepStretch dictSetP
  rw [hget, pyDictInsert_append_front _ _ _ _ (by simp [npFront, List.find?])
    (extras_key_ne extras hex "stretch_level" (by decide))]
  simp [npFront]

theorem npStepLayout_front (v₁ v₂ v₃ v₄ v₅ v₆ v₇ v₈ v₉ v₁₀ : PyVal)
    (extras : List (String × PyVal))
    (hex : ∀ key ∈ extras.map Prod.fst, ¬ key ∈ defKeysList) :
    npStepLayout (npFront v₁ v₂ v₃ v₄ v₅ v₆ v₇ v₈ v₉ v₁₀ ++ extras)
      = npFront v₁ v₂ v₃ v₄ v₅ v₆ v₇ v₈ (strListVal (npListValue (some v₉))) v₁₀
        ++ extras := by
  have hget : dictGetP (npFront v₁ v₂ v₃ v₄ v₅ v₆ v₇ v₈ v₉ v₁₀ ++ extras)
      "section_layout" = some v₉ := by
    simp [npFront, dictGetP, List.find?]
  unfold npStepLayout dictSetP
  rw [hget, pyDictInsert_append_front _ _ _ _ (by simp [npFront, List.find?])
    (extras_key_ne extras hex "section_layout" (by decide))]
  simp [npFront]

theorem npStepOverride_front (params : List (String × PyVal))
    (v₁ v₂ v₃ v₄ v₅ v₆ v₇ v₈ v₉ v₁₀ : PyVal)
    (extras : List (String × PyVal))
    (hex : ∀ key ∈ extras.map Prod.fst, ¬ key ∈ defKeysList) :
    npStepOverride params (npFront v₁ v₂ v₃ v₄ v₅ v₆ v₇ v₈ v₉ v₁₀ ++ extras)
      = npFront v₁ v₂ v₃ v₄ v₅ v₆ v₇ v₈
          (if (params.find? (fun kv => kv.1 = "sections")).isSome &&
              pyTruthy v₁ then v₁ else v₉) v₁₀
        ++ extras := by
  have hget : dictGetP (npFront v₁ v₂ v₃ v₄ v₅ v₆ v₇ v₈ v₉ v₁₀ ++ extras)
      "sections" = some v₁ := by
    simp [npFront, dictGetP, List.find?]
  unfold npStepOverride
  rw [hget]
  simp only [Option.getD_some]
  by_cases hc : ((params.find? (fun kv => kv.1 = "sections")).isSome &&
      pyTruthy v₁) = true
  · rw [if_pos hc, if_pos hc]
    unfold dictSetP
    rw [pyDictInsert_append_front _ _ _ _ (by simp [npFront, List.find?])
      (extras_key_ne extras hex "section_layout" (by decide))]
    simp [npFront]
  · rw [if_neg hc, if_neg hc]

theorem npStepInserts_front (v₁ v₂ v₃ v₄ v₅ v₆ v₇ v₈ v₉ v₁₀ : PyVal)
    (extras : List (String × PyVal))
    (hex : ∀ key ∈ extras.map Prod.fst, ¬ key ∈ defKeysList) :
    npStepInserts (npFront v₁ v₂ v₃ v₄ v₅ v₆ v₇ v₈ v₉ v₁₀ ++ extras)
      = npFront v₁ v₂ v₃ v₄ v₅ v₆ v₇ v₈ v₉
          (strListVal (npInsertsValue (some v₁₀)))
        ++ extras := by
  have hget : dictGetP (npFront v₁ v₂ v₃ v₄ v₅ v₆ v₇ v₈ v₉ v₁₀ ++ extras)
      "cover_letter_inserts" = some v₁₀ := by
    simp [npFront, dictGetP, List.find?]
  unfold npStepInserts dictSetP
  rw [hget, pyDictInsert_append_front _ _ _ _ (by simp [npFront, List.find?])
    (extras_key_ne extras hex "cover_letter_inserts" (by decide))]
  simp [npFront]

/-- The min-token computation as a function of the three stored values it
reads. -/
def npMinTokensVal (sv bv lv : PyVal) : Int :=
  let bps := asInt bv
  let min_tokens1 : Int := if 5 ≤ bps then max 2500 3000 else 2500
  let num_sections : Int :=
    let ls := pyLenList sv
    if ls = 0 then pyLenList lv else ls
  let min_tokens2 : Int :=
    if 3 ≤ num_sections ∧ 4 ≤ bps then max min_tokens1 3500 else min_tokens1
  max min_tokens2 1000

theorem npMinTokens_front (v₁ v₂ v₃ v₄ v₅ v₆ v₇ v₈ v₉ v₁₀ : PyVal)
    (extras : List (String × PyVal)) :
    npMinTokens (npFront v₁ v₂ v₃ v₄ v₅ v₆ v₇ v₈ v₉ v₁₀ ++ extras)
      = npMinTokensVal v₁ v₂ v₉ := by
  have h2 : dictGetP (npFront v₁ v₂ v₃ v₄ v₅ v₆ v₇ v₈ v₉ v₁₀ ++ extras)
      "bullets_per_section" = some v₂ := by
    simp [npFront, dictGetP, List.find?]
  have h1 : dictGetP (npFront v₁ v₂ v₃ v₄ v₅ v₆ v₇ v₈ v₉ v₁₀ ++ extras)
      "sections" = some v₁ := by
    simp [npFront, dictGetP, List.find?]
  have h9 : dictGetP (npFront v₁ v₂ v₃ v₄ v₅ v₆ v₇ v₈ v₉ v₁₀ ++ extras)
      "section_layout" = some v₉ := by
    simp [npFront, dictGetP, List.find?]
  unfold npMinTokens npMinTokensVal
  rw [h2, h1, h9]
  rfl

theorem npStepClampMin_front (v₁ v₂ v₃ v₄ v₅ v₆ : PyVal) (m : Int)
    (v₈ v₉ v₁₀ : PyVal) (extras : List (String × PyVal))
    (hex : ∀ key ∈ extras.map Prod.fst, ¬ key ∈ defKeysList) :
    npStepClampMin (npFront v₁ v₂ v₃ v₄ v₅ v₆ (.int m) v₈ v₉ v₁₀ ++ extras)
      = npFront v₁ v₂ v₃ v₄ v₅ v₆
          (.int (if m < npMinTokensVal v₁ v₂ v₉ then npMinTokensVal v₁ v₂ v₉
            else m)) v₈ v₉ v₁₀ ++ extras := by
  have hget : dictGetP (npFront v₁ v₂ v₃ v₄ v₅ v₆ (.int m) v₈ v₉ v₁₀ ++ extras)
      "max_output_tokens" = some (.int m) := by
    simp [npFront, dictGetP, List.find?]
  unfold npStepClampMin
  rw [hget, npMinTokens_front]
  simp only [Option.getD_some, asInt]
  by_cases hc : m < npMinTokensVal v₁ v₂ v₉
  · rw [if_pos hc, if_pos hc]
    unfold dictSetP
    rw [pyDictInsert_append_front _ _ _ _ (by simp [npFront, List.find?])
      (extras_key_ne extras hex "max_output_tokens" (by decide))]
    simp [npFront]
  · rw [if_neg hc, if_neg hc]

theorem npStepClampMax_front (v₁ v₂ v₃ v₄ v₅ v₆ : PyVal) (m : Int)
    (v₈ v₉ v₁₀ : PyVal) (extras : List (String × PyVal))
    (hex : ∀ key ∈ extras.map Prod.fst, ¬ key ∈ defKeysList) :
    npStepClampMax (npFront v₁ v₂ v₃ v₄ v₅ v₆ (.int m) v₈ v₉ v₁₀ ++ extras)
      = npFront v₁ v₂ v₃ v₄ v₅ v₆
          (.int (if 6500 < m then 6500 else m)) v₈ v₉ v₁₀ ++ extras := by
  have hget : dictGetP (npFront v₁ v₂ v₃ v₄ v₅ v₆ (.int m) v₈ v₉ v₁₀ ++ extras)
      "max_output_tokens" = some (.int m) := by
    simp [npFront, dictGetP, List.find?]
  unfold npStepClampMax
  rw [hget]
  simp only [Option.getD_some, asInt]
  by_cases hc : 6500 < m
  · rw [if_pos hc, if_pos hc]
    unfold dictSetP
    rw [pyDictInsert_append_front _ _ _ _ (by simp [npFront, List.find?])
      (extras_key_ne extras hex "max_output_tokens" (by decide))]
    simp [npFront]
  · rw [if_neg hc, if_neg hc]

/-! ### The explicit form of a normalized dictionary -/

/-- The min-token bound as a function of the sanitized `sections` list and
`bullets_per_section` (the `section_layout` length is only consulted when
`sections` is empty, which the sanitizer never produces). -/
def npMinTokForm (S : List String) (B : Int) : Int :=
  let min_tokens1 : Int := if 5 ≤ B then max 2500 3000 else 2500
  let min_tokens2 : Int :=
    if 3 ≤ (S.length : Int) ∧ 4 ≤ B then max min_tokens1 3500 else min_tokens1
  max min_tokens2 1000

theorem pyLenList_strListVal (S : List String) :
    pyLenList (strListVal S) = (S.length : Int) := by
  simp [pyLenList, strListVal, PyList.toList_ofList]

theorem npMinTokensVal_form (S : List String) (B : Int) (lv : PyVal)
    (h : S ≠ []) :
    npMinTokensVal (strListVal S) (.int B) lv = npMinTokForm S B := by
  have hne : ¬ (pyLenList (strListVal S)) = 0 := by
    rw [pyLenList_strListVal]
    intro hh
    exact h (List.length_eq_zero.mp (by exact_mod_cast hh))
  unfold npMinTokensVal npMinTokForm
  dsimp only
  rw [if_neg hne, pyLenList_strListVal]
  rfl

theorem npMinTokForm_le (S : List String) (B : Int) : npMinTokForm S B ≤ 6500 := by
  unfold npMinTokForm
  dsimp only
  refine max_le ?_ (by norm_num)
  split
  · refine max_le ?_ (by norm_num)
    split
    · exact max_le (by norm_num) (by norm_num)
    · norm_num
  · split
    · exact max_le (by norm_num) (by norm_num)
    · norm_num

theorem normalize_explicit (p : List (String × PyVal)) :
    ∃ (S : List String) (B : Int) (T : String) (U C : Bool) (Q : ℚ) (M L : Int)
      (Yv : PyVal) (I : List String) (extras : List (String × PyVal)),
      normalize_parameters p
          = npFront (strListVal S) (.int B) (.str T) (.bool U) (.bool C)
              (.float Q) (.int M) (.int L) Yv (strListVal I) ++ extras ∧
        S ≠ [] ∧ (∀ x ∈ S, pyStrip x = x ∧ ¬ x = "") ∧
        1 ≤ B ∧
        (pyStrip T = T ∧ ¬ T = "") ∧
        (0 ≤ L ∧ L ≤ 3) ∧
        (∀ x ∈ I, pyStrip x = x ∧ ¬ x = "") ∧
        (npMinTokForm S B ≤ M ∧ M ≤ 6500) ∧
        (∀ key ∈ extras.map Prod.fst, ¬ key ∈ defKeysList) ∧
        (extras.map Prod.fst).Nodup := by
  obtain ⟨v₁, v₂, v₃, v₄, v₅, v₆, v₇, v₈, v₉, v₁₀, extras, hm, hex, hnd⟩ :=
    pyMerge_default_shape p
  have h1 : normalize_parameters p
      = npStepClampMax (npStepClampMin (npStepInserts (npStepOverride p
          (npStepLayout (npStepStretch (npStepCover (npStepSummary (npStepTone
            (npStepMot (npStepTemp (npStepBps (npStepSections
              (npFront v₁ v₂ v₃ v₄ v₅ v₆ v₇ v₈ v₉ v₁₀ ++ extras))))))))))))) := by
    unfold normalize_parameters
    rw [hm]
  rw [npStepSections_front _ _ _ _ _ _ _ _ _ _ _ hex] at h1
  rw [npStepBps_front _ _ _ _ _ _ _ _ _ _ _ hex] at h1
  rw [npStepTemp_front _ _ _ _ _ _ _ _ _ _ _ hex] at h1
  rw [npStepMot_front _ _ _ _ _ _ _ _ _ _ _ hex] at h1
  rw [npStepTone_front _ _ _ _ _ _ _ _ _ _ _ hex] at h1
  rw [npStepSummary_front _ _ _ _ _ _ _ _ _ _ _ hex] at h1
  rw [npStepCover_front _ _ _ _ _ _ _ _ _ _ _ hex] at h1
  rw [npStepStretch_front _ _ _ _ _ _ _ _ _ _ _ hex] at h1
  rw [npStepLayout_front _ _ _ _ _ _ _ _ _ _ _ hex] at h1
  rw [npStepOverride_front p _ _ _ _ _ _ _ _ _ _ _ hex] at h1
  rw [npStepInserts_front _ _ _ _ _ _ _ _ _ _ _ hex] at h1
  rw [npStepClampMin_front _ _ _ _ _ _ _ _ _ _ _ hex] at h1
  rw [npMinTokensVal_form _ _ _ (npListValue_ne_nil _)] at h1
  rw [npStepClampMax_front _ _ _ _ _ _ _ _ _ _ _ hex] at h1
  set S := npListValue (some v₁) with hS
  set B := npBpsValue (some v₂) with hB
  set M0 := npMotValue (some v₇) with hM0
  set mt := npMinTokForm S B with hmt
  set M1 := if M0 < mt then mt else M0 with hM1
  set M2 := if 6500 < M1 then 6500 else M1 with hM2
  have hM1ge : mt ≤ M1 := by
    rw [hM1]
    split
    · exact le_refl mt
    · rename_i hcc
      exact le_of_not_lt hcc
  have hmtle : mt ≤ 6500 := by rw [hmt]; exact npMinTokForm_le S B
  have hM2ge : mt ≤ M2 := by
    rw [hM2]
    split
    · exact hmtle
    · exact hM1ge
  have hM2le : M2 ≤ 6500 := by
    rw [hM2]
    split
    · exact le_refl 6500
    · rename_i hcc
      exact le_of_not_lt hcc
  rw [hmt] at hM2ge
  exact ⟨S, B, npToneValue (some v₃), pyTruthy v₄, pyTruthy v₅,
    npTempValue (some v₆), M2, npStretchValue (some v₈), _,
    npInsertsValue (some v₁₀), extras, h1, npListValue_ne_nil _,
    npListValue_clean _, npBpsValue_ge_one _, npToneValue_clean _,
    npStretchValue_bounds _, npInsertsValue_clean _, ⟨hM2ge, hM2le⟩, hex, hnd⟩

/-- The step function of the `pyMerge` fold, named so the fold can be
rewritten one binding at a time. -/
def insStep (acc : List (String × PyVal)) (kv : String × PyVal) :
    List (String × PyVal) :=
  pyDictInsert acc kv.1 kv.2

theorem foldl_insStep_cons (k₀ : String) :
    ∀ (t : List (String × PyVal)) (x : String × PyVal)
      (acct : List (String × PyVal)),
      x.1 = k₀ → (∀ kv ∈ t, ¬ kv.1 = k₀) →
      List.foldl insStep (x :: acct) t
        = x :: List.foldl insStep acct t := by
  intro t
  induction t with
  | nil => intro x acct _ _; rfl
  | cons a t2 ih =>
    intro x acct hx ht
    rw [List.foldl_cons, List.foldl_cons]
    have hxa : ¬ x.1 = a.1 := fun heq => ht a (by simp) (by rw [← heq]; exact hx)
    have hstep : insStep (x :: acct) a = x :: insStep acct a := by
      show pyDictInsert (x :: acct) a.1 a.2 = x :: pyDictInsert acct a.1 a.2
      have h2 := pyDictInsert_append_right [x] acct a.1 a.2
        (fun kv hkv => by simp at hkv; rw [hkv]; exact hxa)
      simpa using h2
    rw [hstep]
    exact ih x (insStep acct a) hx (fun kv hkv => ht kv (by simp [hkv]))

theorem foldl_insStep_same_keys :
    ∀ (l acc : List (String × PyVal)), acc.map Prod.fst = l.map Prod.fst →
      (l.map Prod.fst).Nodup →
      List.foldl insStep acc l = l := by
  intro l
  induction l with
  | nil =>
    intro acc h _
    rw [List.map_nil, List.map_eq_nil_iff] at h
    rw [h]
    rfl
  | cons kv t ih =>
    intro acc hkeys hnd
    rcases acc with _ | ⟨a, acct⟩
    · simp at hkeys
    simp only [List.map_cons, List.cons.injEq] at hkeys
    obtain ⟨h1, h2⟩ := hkeys
    simp only [List.map_cons, List.nodup_cons] at hnd
    obtain ⟨hkv_nin, hnd2⟩ := hnd
    rw [List.foldl_cons]
    have hstep : insStep (a :: acct) kv = kv :: acct := by
      show pyDictInsert (a :: acct) kv.1 kv.2 = kv :: acct
      unfold pyDictInsert
      have hfind : ((a :: acct).find? (fun kv2 => kv2.1 = kv.1)) = some a := by
        simp only [List.find?, decide_eq_true h1]
      rw [hfind]
      simp only [Option.isSome_some, if_true]
      rw [List.map_cons, if_pos h1,
        map_keep_of_ne acct kv.1 kv.2 (fun kv2 hkv2 heq =>
          hkv_nin (by rw [← heq, ← h2]; exact List.mem_map_of_mem _ hkv2))]
    rw [hstep]
    rw [foldl_insStep_cons kv.1 t kv acct rfl (fun kv2 hkv2 heq =>
      hkv_nin (by rw [← heq]; exact List.mem_map_of_mem _ hkv2))]
    rw [ih acct h2 hnd2]

theorem pyMerge_front_extras (w₁ w₂ w₃ w₄ w₅ w₆ w₇ w₈ w₉ w₁₀ : PyVal)
    (extras : List (String × PyVal))
    (hex : ∀ key ∈ extras.map Prod.fst, ¬ key ∈ defKeysList)
    (hnd : (extras.map Prod.fst).Nodup) :
    pyMerge DEFAULT_PARAMETERS (npFront w₁ w₂ w₃ w₄ w₅ w₆ w₇ w₈ w₉ w₁₀ ++ extras)
      = npFront w₁ w₂ w₃ w₄ w₅ w₆ w₇ w₈ w₉ w₁₀ ++ extras := by
  show List.foldl insStep DEFAULT_PARAMETERS
      (npFront w₁ w₂ w₃ w₄ w₅ w₆ w₇ w₈ w₉ w₁₀ ++ extras)
    = npFront w₁ w₂ w₃ w₄ w₅ w₆ w₇ w₈ w₉ w₁₀ ++ extras
  rw [List.foldl_append]
  rw [foldl_insStep_same_keys (npFront w₁ w₂ w₃ w₄ w₅ w₆ w₇ w₈ w₉ w₁₀)
    DEFAULT_PARAMETERS rfl (by show defKeysList.Nodup; decide)]
  have hdisj : ∀ key ∈ extras.map Prod.fst,
      ¬ key ∈ (npFront w₁ w₂ w₃ w₄ w₅ w₆ w₇ w₈ w₉ w₁₀).map Prod.fst := by
    intro key hkey hmem
    have hfk : (npFront w₁ w₂ w₃ w₄ w₅ w₆ w₇ w₈ w₉ w₁₀).map Prod.fst
        = defKeysList := rfl
    rw [hfk] at hmem
    exact hex key hkey hmem
  exact foldl_insert_fresh extras _ hnd hdisj

/-- C3 (amended): a second application of `normalize_parameters` returns
the same dictionary except that `section_layout` is overwritten with the
already-normalized `sections` value (the precedence rule of
services.py:1283-1286 always fires on a normalized dictionary, because the
merged `sections` key is always present and truthy).  In particular,
`normalize_parameters` is idempotent exactly on those inputs whose first
normalization already stores `section_layout = sections`. -/
theorem normalize_parameters_second_pass (p : List (String × PyVal)) :
    normalize_parameters (normalize_parameters p)
      = dictSetP (normalize_parameters p) "section_layout"
          ((dictGetP (normalize_parameters p) "sections").getD .none) := by
  obtain ⟨S, B, T, U, C, Q, M, L, Yv, I, extras, heq, hS0, hS, hB, hT, hL, hI,
    hM, hex, hnd⟩ := normalize_explicit p
  rw [heq]
  have hmerge : pyMerge DEFAULT_PARAMETERS
      (npFront (strListVal S) (.int B) (.str T) (.bool U) (.bool C) (.float Q)
        (.int M) (.int L) Yv (strListVal I) ++ extras)
      = npFront (strListVal S) (.int B) (.str T) (.bool U) (.bool C) (.float Q)
        (.int M) (.int L) Yv (strListVal I) ++ extras :=
    pyMerge_front_extras _ _ _ _ _ _ _ _ _ _ extras hex hnd
  have h1 : normalize_parameters
      (npFront (strListVal S) (.int B) (.str T) (.bool U) (.bool C) (.float Q)
        (.int M) (.int L) Yv (strListVal I) ++ extras)
      = npStepClampMax (npStepClampMin (npStepInserts (npStepOverride
          (npFront (strListVal S) (.int B) (.str T) (.bool U) (.bool C)
            (.float Q) (.int M) (.int L) Yv (strListVal I) ++ extras)
          (npStepLayout (npStepStretch (npStepCover (npStepSummary (npStepTone
            (npStepMot (npStepTemp (npStepBps (npStepSections
              (npFront (strListVal S) (.int B) (.str T) (.bool U) (.bool C)
                (.float Q) (.int M) (.int L) Yv (strListVal I)
                ++ extras))))))))))))) := by
    unfold normalize_parameters
    rw [hmerge]
  rw [npStepSections_front _ _ _ _ _ _ _ _ _ _ _ hex] at h1
  rw [npListValue_id S hS0 hS] at h1
  rw [npStepBps_front _ _ _ _ _ _ _ _ _ _ _ hex] at h1
  rw [npBpsValue_int B hB] at h1
  rw [npStepTemp_front _ _ _ _ _ _ _ _ _ _ _ hex] at h1
  rw [show npTempValue (some (.float Q)) = Q from rfl] at h1
  rw [npStepMot_front _ _ _ _ _ _ _ _ _ _ _ hex] at h1
  rw [show npMotValue (some (.int M)) = M from rfl] at h1
  rw [npStepTone_front _ _ _ _ _ _ _ _ _ _ _ hex] at h1
  rw [npToneValue_str T hT.1 hT.2] at h1
  rw [npStepSummary_front _ _ _ _ _ _ _ _ _ _ _ hex] at h1
  rw [show pyTruthy (.bool U) = U from rfl] at h1
  rw [npStepCover_front _ _ _ _ _ _ _ _ _ _ _ hex] at h1
  rw [show pyTruthy (.bool C) = C from rfl] at h1
  rw [npStepStretch_front _ _ _ _ _ _ _ _ _ _ _ hex] at h1
  rw [npStretchValue_int L hL.1 hL.2] at h1
  rw [npStepLayout_front _ _ _ _ _ _ _ _ _ _ _ hex] at h1
  rw [npStepOverride_front _ _ _ _ _ _ _ _ _ _ _ _ hex] at h1
  have hov : ((npFront (strListVal S) (.int B) (.str T) (.bool U) (.bool C)
      (.float Q) (.int M) (.int L) Yv (strListVal I) ++ extras).find?
        (fun kv => kv.1 = "sections")).isSome = true := by
    simp [npFront, List.find?]
  have hcond : (((npFront (strListVal S) (.int B) (.str T) (.bool U) (.bool C)
      (.float Q) (.int M) (.int L) Yv (strListVal I) ++ extras).find?
        (fun kv => kv.1 = "sections")).isSome &&
      pyTruthy (strListVal S)) = true := by
    rw [hov, pyTruthy_strListVal S hS0]
    rfl
  rw [if_pos hcond] at h1
  rw [npStepInserts_front _ _ _ _ _ _ _ _ _ _ _ hex] at h1
  rw [npInsertsValue_id I hI] at h1
  rw [npStepClampMin_front _ _ _ _ _ _ _ _ _ _ _ hex] at h1
  rw [npMinTokensVal_form S B _ hS0] at h1
  rw [if_neg (not_lt.mpr hM.1)] at h1
  rw [npStepClampMax_front _ _ _ _ _ _ _ _ _ _ _ hex] at h1
  rw [if_neg (not_lt.mpr hM.2)] at h1
  rw [h1]
  have hgs : dictGetP (npFront (strListVal S) (.int B) (.str T) (.bool U)
      (.bool C) (.float Q) (.int M) (.int L) Yv (strListVal I) ++ extras)
      "sections" = some (strListVal S) := by
    simp [npFront, dictGetP, List.find?]
  rw [hgs]
  simp only [Option.getD_some]
  unfold dictSetP
  rw [pyDictInsert_append_front _ _ _ _ (by simp [npFront, List.find?])
    (extras_key_ne extras hex "section_layout" (by decide))]
  simp [npFront]

end Tailoring
